import Mathlib

/-!
Verification of the OfflineIMAP3 three-pass folder synchronizer and its
IMAP utility functions, as a shallow embedding of the Python source
(offlineimap/imaputil.py, offlineimap/folder/Base.py,
offlineimap/folder/IMAP.py) into Lean.

Strings are modelled as lists of characters where the Python code works
character-wise (quote/dequote); Python dicts keyed by message UID are
modelled as association lists `List (Int × Msg)`; Python sets of
single-letter flags are modelled as `Finset Char`.
-/

namespace Offlineimap

/-! ## Python string primitives used by imaputil.quote / imaputil.dequote -/

/-- Fuel-indexed worker for Python's `str.replace`.  At each position,
if the (nonempty) pattern occurs there, emit the replacement and skip
the pattern; otherwise emit the character and continue.  The fuel is an
upper bound on the number of characters processed, which makes the
function structurally recursive (and hence kernel-computable). -/
def pyReplaceAux (pat repl : List Char) : Nat → List Char → List Char
  | _, [] => []
  | 0, s => s
  | fuel + 1, c :: cs =>
    if pat ≠ [] ∧ pat.isPrefixOf (c :: cs) then
      repl ++ pyReplaceAux pat repl fuel ((c :: cs).drop pat.length)
    else
      c :: pyReplaceAux pat repl fuel cs

/-- Python's `str.replace`: replace every non-overlapping occurrence of
`pat` in `s` by `repl`, scanning left to right.  Modelled on lists of
characters. -/
def pyReplace (pat repl s : List Char) : List Char :=
  pyReplaceAux pat repl s.length s

/-- Embedding of `imaputil.quote` (imaputil.py lines 53-61): escape every
double quote, then escape every backslash, then wrap in double quotes
(in that order, as in the source). -/
def quote (s : List Char) : List Char :=
  let s1 := pyReplace ['"'] ['\\', '"'] s
  let s2 := pyReplace ['\\'] ['\\', '\\'] s1
  '"' :: s2 ++ ['"']

/-- Embedding of `imaputil.dequote` (imaputil.py lines 40-50): if the
string is nonempty and starts and ends with a double quote, strip the
surrounding quotes, then unescape backslash-quote, then unescape
doubled backslashes. -/
def dequote (s : List Char) : List Char :=
  if s.head? = some '"' ∧ s.getLast? = some '"' then
    let inner := (s.drop 1).dropLast
    let s1 := pyReplace ['\\', '"'] ['"'] inner
    pyReplace ['\\', '\\'] ['\\'] s1
  else
    s

/-! ## imaputil.uid_sequence -/

/-- Embedding of the inner helper `getrange` of `imaputil.uid_sequence`
(imaputil.py lines 202-205). -/
def getrange (start stop : Int) : String :=
  if start = stop then toString start
  else toString start ++ ":" ++ toString stop

/-- Embedding of the accumulation loop of `imaputil.uid_sequence`
(imaputil.py lines 215-225): `start` and `stop` hold the current run;
each further item either extends the run by one or flushes it. -/
def uidSeqLoop : List Int → Int → Int → List String
  | [], start, stop => [getrange start stop]
  | x :: xs, start, stop =>
    if x = stop + 1 then uidSeqLoop xs start x
    else getrange start stop :: uidSeqLoop xs x x

/-- Embedding of `imaputil.uid_sequence` (imaputil.py lines 195-226):
sort the list ascending, collapse runs of consecutive integers into
`a:b` ranges, join with commas; the empty list gives the empty string. -/
def uid_sequence (uidlist : List Int) : String :=
  match List.insertionSort (· ≤ ·) uidlist with
  | [] => ""
  | x :: xs => String.intercalate "," (uidSeqLoop xs x x)

/-- Specification-side view of the run decomposition performed by
`uid_sequence`: the list of (start, stop) pairs of the runs the loop
flushes, in order. -/
def runsLoop : List Int → Int → Int → List (Int × Int)
  | [], start, stop => [(start, stop)]
  | x :: xs, start, stop =>
    if x = stop + 1 then runsLoop xs start x
    else (start, stop) :: runsLoop xs x x

/-- Specification-side run decomposition of a list: runs of the sorted
list, or no runs when the list is empty. -/
def runsOf (uidlist : List Int) : List (Int × Int) :=
  match List.insertionSort (· ≤ ·) uidlist with
  | [] => []
  | x :: xs => runsLoop xs x x

/-- Rendering of a single run, matching `getrange`. -/
def renderRun (p : Int × Int) : String := getrange p.1 p.2

/-- Doubling every backslash in a character list; the effect of the
second replacement performed by `quote` on quote-free input. -/
def dbl : List Char → List Char
  | [] => []
  | c :: cs => if c = '\\' then '\\' :: '\\' :: dbl cs else c :: dbl cs

lemma isPrefixOf_single (a c : Char) (cs : List Char) :
    List.isPrefixOf [a] (c :: cs) = (a == c) := by
  simp [List.isPrefixOf]

lemma isPrefixOf_pair (a b c : Char) (cs : List Char) :
    List.isPrefixOf [a, b] (c :: cs) = (a == c && List.isPrefixOf [b] cs) := by
  simp [List.isPrefixOf]

lemma mem_dbl {a : Char} : ∀ {s : List Char}, a ∈ dbl s → a = '\\' ∨ a ∈ s := by
  intro s
  induction s with
  | nil => simp [dbl]
  | cons c cs ih =>
    intro h
    by_cases hc : c = '\\'
    · rw [dbl, if_pos hc] at h
      rcases List.mem_cons.mp h with h1 | h1
      · exact Or.inl h1
      rcases List.mem_cons.mp h1 with h2 | h2
      · exact Or.inl h2
      rcases ih h2 with h3 | h3
      · exact Or.inl h3
      · exact Or.inr (List.mem_cons_of_mem _ h3)
    · rw [dbl, if_neg hc] at h
      rcases List.mem_cons.mp h with h1 | h1
      · exact Or.inr (h1 ▸ List.mem_cons_self c cs)
      rcases ih h1 with h3 | h3
      · exact Or.inl h3
      · exact Or.inr (List.mem_cons_of_mem _ h3)

lemma pyReplaceAux_esc_quote : ∀ (fuel : Nat) (s : List Char), s.length ≤ fuel →
    '"' ∉ s → pyReplaceAux ['"'] ['\\', '"'] fuel s = s := by
  intro fuel
  induction fuel with
  | zero =>
    intro s hs _
    have h0 : s = [] := List.length_eq_zero.mp (Nat.le_zero.mp hs)
    subst h0
    rfl
  | succ n ih =>
    intro s hs hq
    cases s with
    | nil => rfl
    | cons c cs =>
      have hc : ¬(c = '"') := fun h => hq (by simp [h])
      have hcond : ¬(['"'] ≠ [] ∧ List.isPrefixOf ['"'] (c :: cs)) := by
        rintro ⟨-, hpre⟩
        rw [isPrefixOf_single] at hpre
        exact hc (beq_iff_eq.mp hpre).symm
      rw [pyReplaceAux, if_neg hcond]
      have hq' : '"' ∉ cs := fun h => hq (List.mem_cons_of_mem _ h)
      rw [ih cs (by simpa using hs) hq']

lemma pyReplaceAux_unesc_quote : ∀ (fuel : Nat) (s : List Char), s.length ≤ fuel →
    '"' ∉ s → pyReplaceAux ['\\', '"'] ['"'] fuel s = s := by
  intro fuel
  induction fuel with
  | zero =>
    intro s hs _
    have h0 : s = [] := List.length_eq_zero.mp (Nat.le_zero.mp hs)
    subst h0
    rfl
  | succ n ih =>
    intro s hs hq
    cases s with
    | nil => rfl
    | cons c cs =>
      have hcond : ¬(['\\', '"'] ≠ [] ∧ List.isPrefixOf ['\\', '"'] (c :: cs)) := by
        rintro ⟨-, hpre⟩
        rw [isPrefixOf_pair] at hpre
        cases cs with
        | nil => simp [List.isPrefixOf] at hpre
        | cons d ds =>
          rw [isPrefixOf_single] at hpre
          simp only [Bool.and_eq_true, beq_iff_eq] at hpre
          have hmem : '"' ∈ c :: d :: ds := by
            rw [hpre.2]
            simp
          exact hq hmem
      rw [pyReplaceAux, if_neg hcond]
      have hq' : '"' ∉ cs := fun h => hq (List.mem_cons_of_mem _ h)
      rw [ih cs (by simpa using hs) hq']

lemma pyReplaceAux_dbl : ∀ (fuel : Nat) (s : List Char), s.length ≤ fuel →
    pyReplaceAux ['\\'] ['\\', '\\'] fuel s = dbl s := by
  intro fuel
  induction fuel with
  | zero =>
    intro s hs
    have h0 : s = [] := List.length_eq_zero.mp (Nat.le_zero.mp hs)
    subst h0
    rfl
  | succ n ih =>
    intro s hs
    cases s with
    | nil => rfl
    | cons c cs =>
      have hlen : cs.length ≤ n := by simpa using hs
      by_cases hc : c = '\\'
      · have hcond : (['\\'] ≠ [] ∧ List.isPrefixOf ['\\'] (c :: cs)) := by
          refine ⟨by simp, ?_⟩
          rw [isPrefixOf_single, beq_iff_eq]
          exact hc.symm
        rw [pyReplaceAux, if_pos hcond]
        simp only [List.length_singleton, List.drop_succ_cons, List.drop_zero]
        rw [ih cs hlen, dbl, if_pos hc]
        rfl
      · have hcond : ¬(['\\'] ≠ [] ∧ List.isPrefixOf ['\\'] (c :: cs)) := by
          rintro ⟨-, hpre⟩
          rw [isPrefixOf_single] at hpre
          exact hc (beq_iff_eq.mp hpre).symm
        rw [pyReplaceAux, if_neg hcond, ih cs hlen, dbl, if_neg hc]

lemma pyReplaceAux_halve : ∀ (s : List Char) (fuel : Nat), (dbl s).length ≤ fuel →
    pyReplaceAux ['\\', '\\'] ['\\'] fuel (dbl s) = s := by
  intro s
  induction s with
  | nil =>
    intro fuel _
    cases fuel <;> rfl
  | cons c cs ih =>
    intro fuel hf
    by_cases hc : c = '\\'
    · have hd : dbl (c :: cs) = '\\' :: '\\' :: dbl cs := by rw [dbl, if_pos hc]
      rw [hd] at hf ⊢
      obtain ⟨m, rfl⟩ : ∃ m, fuel = m + 1 := by
        cases fuel with
        | zero => simp at hf
        | succ k => exact ⟨k, rfl⟩
      have hcond : (['\\', '\\'] ≠ [] ∧
          List.isPrefixOf ['\\', '\\'] ('\\' :: '\\' :: dbl cs)) := by
        refine ⟨by simp, ?_⟩
        rw [isPrefixOf_pair, isPrefixOf_single]
        simp
      rw [pyReplaceAux, if_pos hcond]
      simp only [List.length_cons, List.length_nil, List.drop_succ_cons,
        List.drop_zero]
      rw [ih m (by simp only [List.length_cons] at hf; omega), hc]
      rfl
    · have hd : dbl (c :: cs) = c :: dbl cs := by rw [dbl, if_neg hc]
      rw [hd] at hf ⊢
      obtain ⟨m, rfl⟩ : ∃ m, fuel = m + 1 := by
        cases fuel with
        | zero => simp at hf
        | succ k => exact ⟨k, rfl⟩
      have hcond : ¬(['\\', '\\'] ≠ [] ∧
          List.isPrefixOf ['\\', '\\'] (c :: dbl cs)) := by
        rintro ⟨-, hpre⟩
        rw [isPrefixOf_pair] at hpre
        simp only [Bool.and_eq_true, beq_iff_eq] at hpre
        exact hc hpre.1.symm
      rw [pyReplaceAux, if_neg hcond, ih m (by simpa using hf)]

lemma quote_eq_of_no_dquote (s : List Char) (h : '"' ∉ s) :
    quote s = '"' :: dbl s ++ ['"'] := by
  simp only [quote, pyReplace]
  rw [pyReplaceAux_esc_quote s.length s le_rfl h]
  rw [pyReplaceAux_dbl s.length s le_rfl]

/-- C10 (counterexample): the claim `dequote (quote s) = s` for every
string fails on the code: `quote` escapes double quotes before doubling
backslashes, so for the one-character string consisting of a double
quote, `quote` yields `"\\""` which dequotes to `\"`, not to `"`. -/
theorem dequote_quote_counterexample :
    dequote (quote ['"']) = ['\\', '"'] ∧ dequote (quote ['"']) ≠ ['"'] := by
  decide

/-- C10 (amended): for every string that contains no double-quote
character, `dequote (quote s) = s`; the round trip fails in general
because `quote` escapes embedded double quotes before doubling
backslashes while `dequote` unescapes in the same order. -/
theorem dequote_quote_roundtrip (s : List Char) (h : '"' ∉ s) :
    dequote (quote s) = s := by
  rw [quote_eq_of_no_dquote s h]
  have hq1 : '"' ∉ dbl s := by
    intro hmem
    rcases mem_dbl hmem with h1 | h1
    · exact absurd h1 (by decide)
    · exact h h1
  have hhead : ('"' :: dbl s ++ ['"']).head? = some '"' := rfl
  have hlast : ('"' :: dbl s ++ ['"']).getLast? = some '"' := by
    rw [show ('"' :: dbl s ++ ['"']) = ('"' :: dbl s) ++ ['"'] from rfl]
    exact List.getLast?_concat _
  simp only [dequote, if_pos (And.intro hhead hlast)]
  have hdrop : (('"' :: dbl s ++ ['"']).drop 1).dropLast = dbl s := by
    have h1 : ('"' :: dbl s ++ ['"']).drop 1 = dbl s ++ ['"'] := rfl
    rw [h1, List.dropLast_concat]
  rw [hdrop]
  simp only [pyReplace]
  rw [pyReplaceAux_unesc_quote (dbl s).length (dbl s) le_rfl hq1]
  exact pyReplaceAux_halve s (dbl s).length le_rfl

/-- C10 (witness): the round-trip theorem applied to the concrete
string `a\b`. -/
theorem dequote_quote_roundtrip_witness :
    ('"' ∉ ['a', '\\', 'b']) ∧ dequote (quote ['a', '\\', 'b']) = ['a', '\\', 'b'] :=
  ⟨by decide, dequote_quote_roundtrip ['a', '\\', 'b'] (by decide)⟩

lemma uidSeqLoop_eq_map : ∀ (xs : List Int) (s e : Int),
    uidSeqLoop xs s e = (runsLoop xs s e).map renderRun := by
  intro xs
  induction xs with
  | nil => intro s e; rfl
  | cons x xs ih =>
    intro s e
    by_cases hx : x = e + 1 <;>
      simp only [uidSeqLoop, runsLoop, hx, if_true, if_false, ite_true, ite_false,
        List.map_cons, ih]
    rfl

lemma runsLoop_bounds : ∀ (xs : List Int) (s e : Int), s ≤ e →
    List.Chain (· < ·) e xs → ∀ p ∈ runsLoop xs s e, s ≤ p.1 ∧ p.1 ≤ p.2 := by
  intro xs
  induction xs with
  | nil =>
    intro s e hse _ p hp
    simp only [runsLoop, List.mem_singleton] at hp
    subst hp
    exact ⟨le_refl s, hse⟩
  | cons x xs ih =>
    intro s e hse hch p hp
    rcases List.chain_cons.mp hch with ⟨hex, hch'⟩
    by_cases hx : x = e + 1
    · rw [runsLoop, if_pos hx] at hp
      exact ih s x (le_trans hse (le_of_lt hex)) hch' p hp
    · rw [runsLoop, if_neg hx] at hp
      rcases List.mem_cons.mp hp with hp1 | hp1
      · subst hp1
        exact ⟨le_refl s, hse⟩
      · have h2 := ih x x le_rfl hch' p hp1
        exact ⟨le_trans hse (le_trans (le_of_lt hex) h2.1), h2.2⟩

lemma runsLoop_pairwise : ∀ (xs : List Int) (s e : Int), s ≤ e →
    List.Chain (· < ·) e xs →
    (runsLoop xs s e).Pairwise (fun p q => p.2 + 1 < q.1) := by
  intro xs
  induction xs with
  | nil =>
    intro s e _ _
    simp [runsLoop]
  | cons x xs ih =>
    intro s e hse hch
    rcases List.chain_cons.mp hch with ⟨hex, hch'⟩
    by_cases hx : x = e + 1
    · rw [runsLoop, if_pos hx]
      exact ih s x (le_trans hse (le_of_lt hex)) hch'
    · rw [runsLoop, if_neg hx]
      refine List.Pairwise.cons ?_ (ih x x le_rfl hch')
      intro q hq
      have hb := runsLoop_bounds xs x x le_rfl hch' q hq
      have : e + 1 < x := by omega
      omega

lemma runsLoop_mem : ∀ (xs : List Int) (s e : Int), s ≤ e →
    List.Chain (· < ·) e xs → ∀ k : Int,
    (∃ p ∈ runsLoop xs s e, p.1 ≤ k ∧ k ≤ p.2) ↔ ((s ≤ k ∧ k ≤ e) ∨ k ∈ xs) := by
  intro xs
  induction xs with
  | nil =>
    intro s e _ _ k
    simp [runsLoop]
  | cons x xs ih =>
    intro s e hse hch k
    rcases List.chain_cons.mp hch with ⟨hex, hch'⟩
    by_cases hx : x = e + 1
    · rw [runsLoop, if_pos hx]
      rw [ih s x (le_trans hse (le_of_lt hex)) hch' k]
      subst hx
      simp only [List.mem_cons]
      constructor
      · rintro (⟨h1, h2⟩ | hk)
        · by_cases h3 : k ≤ e
          · exact Or.inl ⟨h1, h3⟩
          · exact Or.inr (Or.inl (by omega))
        · exact Or.inr (Or.inr hk)
      · rintro (⟨h1, h2⟩ | hkx | hk)
        · exact Or.inl ⟨h1, by omega⟩
        · exact Or.inl ⟨by omega, by omega⟩
        · exact Or.inr hk
    · rw [runsLoop, if_neg hx]
      simp only [List.mem_cons]
      constructor
      · rintro ⟨p, hp | hp, h1, h2⟩
        · subst hp
          exact Or.inl ⟨h1, h2⟩
        · rcases (ih x x le_rfl hch' k).mp ⟨p, hp, h1, h2⟩ with ⟨h3, h4⟩ | hk
          · exact Or.inr (Or.inl (by omega))
          · exact Or.inr (Or.inr hk)
      · rintro (⟨h1, h2⟩ | rfl | hk)
        · exact ⟨(s, e), Or.inl rfl, h1, h2⟩
        · rcases (ih k k le_rfl hch' k).mpr (Or.inl ⟨le_refl k, le_refl k⟩)
            with ⟨p, hp, h1, h2⟩
          exact ⟨p, Or.inr hp, h1, h2⟩
        · rcases (ih x x le_rfl hch' k).mpr (Or.inr hk) with ⟨p, hp, h1, h2⟩
          exact ⟨p, Or.inr hp, h1, h2⟩

/-- C9 (counterexample): on a list with a duplicate the output ranges
are not non-overlapping: `uid_sequence [1,1] = "1,1"`, whose two runs
both cover the value 1. -/
theorem uid_sequence_counterexample :
    uid_sequence [1, 1] = "1,1" ∧ runsOf [1, 1] = [(1, 1), (1, 1)] ∧
      ¬ List.Pairwise (fun p q : Int × Int => p.2 + 1 < q.1) (runsOf [1, 1]) := by
  refine ⟨by decide, by decide, fun hp => ?_⟩
  rw [show runsOf [1, 1] = [(1, 1), (1, 1)] by decide] at hp
  have := List.rel_of_pairwise_cons hp (List.mem_singleton.mpr rfl)
  omega

/-- C9 (amended): for every duplicate-free list of positive integers,
`uid_sequence` sorts the input ascending and emits the comma-separated
rendering of the maximal runs of consecutive integers, each run
rendered as `a:b` (inclusive) or as a single value; the runs are
ascending and non-overlapping (separated by gaps) and their union
equals the set of input elements; the worked example and the empty
list behave as stated. -/
theorem uid_sequence_runs :
    (∀ l : List Int, (∀ u ∈ l, 0 < u) → l.Nodup →
      uid_sequence l = String.intercalate "," ((runsOf l).map renderRun)
      ∧ (∀ p ∈ runsOf l, p.1 ≤ p.2)
      ∧ (runsOf l).Pairwise (fun p q => p.2 + 1 < q.1)
      ∧ (∀ k : Int, (∃ p ∈ runsOf l, p.1 ≤ k ∧ k ≤ p.2) ↔ k ∈ l))
    ∧ uid_sequence [1, 2, 3, 4, 5, 10, 12, 13] = "1:5,10,12:13"
    ∧ uid_sequence [] = "" := by
  refine ⟨?_, by decide, by decide⟩
  intro l _ hnd
  have hsortle : (List.insertionSort (· ≤ ·) l).Sorted (· ≤ ·) :=
    List.sorted_insertionSort (· ≤ ·) l
  have hperm : List.Perm (List.insertionSort (· ≤ ·) l) l :=
    List.perm_insertionSort (· ≤ ·) l
  have hndL : (List.insertionSort (· ≤ ·) l).Nodup := hperm.nodup_iff.mpr hnd
  have hsortlt : (List.insertionSort (· ≤ ·) l).Sorted (· < ·) :=
    hsortle.lt_of_le hndL
  obtain ⟨L, hL⟩ : ∃ L, List.insertionSort (· ≤ ·) l = L := ⟨_, rfl⟩
  rw [hL] at hperm hndL hsortlt
  cases L with
  | nil =>
    have hmem : ∀ k : Int, k ∈ l ↔ False := by
      intro k
      rw [← hperm.mem_iff]
      simp
    refine ⟨?_, ?_, ?_, ?_⟩
    · have h1 : runsOf l = [] := by simp [runsOf, hL]
      have h2 : uid_sequence l = "" := by simp [uid_sequence, hL]
      rw [h1, h2]
      decide
    · simp [runsOf, hL]
    · simp [runsOf, hL]
    · intro k
      simp [runsOf, hL, hmem k]
  | cons x xs =>
    have hch : List.Chain (· < ·) x xs :=
      List.chain_iff_pairwise.mpr hsortlt
    have hruns : runsOf l = runsLoop xs x x := by simp [runsOf, hL]
    refine ⟨?_, ?_, ?_, ?_⟩
    · simp only [uid_sequence, hL, hruns]
      rw [uidSeqLoop_eq_map]
    · rw [hruns]
      intro p hp
      exact (runsLoop_bounds xs x x le_rfl hch p hp).2
    · rw [hruns]
      exact runsLoop_pairwise xs x x le_rfl hch
    · intro k
      rw [hruns, runsLoop_mem xs x x le_rfl hch k, ← hperm.mem_iff]
      simp only [List.mem_cons]
      constructor
      · rintro (⟨h1, h2⟩ | hk)
        · exact Or.inl (by omega)
        · exact Or.inr hk
      · rintro (rfl | hk)
        · exact Or.inl ⟨le_refl k, le_refl k⟩
        · exact Or.inr hk

/-- C9 (witness): the run theorem applied to the concrete list [3, 5]. -/
theorem uid_sequence_runs_witness :
    ((∀ u ∈ [(3 : Int), 5], 0 < u) ∧ [(3 : Int), 5].Nodup) ∧
      uid_sequence [3, 5] = String.intercalate "," ((runsOf [3, 5]).map renderRun) :=
  ⟨⟨by decide, by decide⟩, (uid_sequence_runs.1 [3, 5] (by decide) (by decide)).1⟩

/-! ## Data model of the synchronizer (folder/Base.py)

A folder's in-memory `messagelist` is a Python dict mapping a UID to a
record with flags, keywords and the internal time; it is modelled as an
association list.  The status-folder backend (LocalStatus) is not part
of the sources under consideration, so its `savemessage`,
`deletemessage` and flag operations are modelled from the spec (section
4.4: a persistent mapping UID → (flags, time) whose save ignores the
body). -/

/-- Message record: flags (single-letter tokens), keywords (free-form
strings) and the internal timestamp. -/
structure Msg where
  flags : Finset Char
  keywords : Finset String
  rtime : Int
deriving DecidableEq

/-- Association-list model of a folder's `messagelist` dict. -/
abbrev MsgList := List (Int × Msg)

/-- Embedding of `BaseFolder.uidexists` (Base.py line 355): membership
of a UID in the message list. -/
def uidexists (l : MsgList) (uid : Int) : Bool :=
  (l.lookup uid).isSome

/-- Embedding of `BaseFolder.getmessageuidlist` (Base.py line 360):
the sorted list of keys of the messagelist dict (dict keys are unique,
hence the dedup). -/
def sortedKeys (l : MsgList) : List Int :=
  List.insertionSort (· ≤ ·) (l.map Prod.fst).dedup

/-- Dict assignment `messagelist[uid] = m`: replace the binding if the
key is present, otherwise append it. -/
def insertMsg : MsgList → Int → Msg → MsgList
  | [], uid, m => [(uid, m)]
  | (v, w) :: rest, uid, m =>
    if v = uid then (v, m) :: rest else (v, w) :: insertMsg rest uid m

/-- Dict deletion `del messagelist[uid]`. -/
def removeKey (l : MsgList) (uid : Int) : MsgList :=
  l.filter (fun p => p.1 != uid)

/-- Embedding of `deletemessages` (Base.py line 765): delete each UID in
turn. -/
def removeKeys (l : MsgList) (uids : List Int) : MsgList :=
  uids.foldl removeKey l

/-- Update the flag set stored under a UID (the effect of
`savemessageflags` on the folder state); a no-op when the UID is
absent. -/
def updateFlags (l : MsgList) (uid : Int) (g : Finset Char → Finset Char) : MsgList :=
  l.map (fun p => if p.1 = uid then (p.1, Msg.mk (g p.2.flags) p.2.keywords p.2.rtime) else p)

/-- Embedding of `BaseFolder.addmessagesflags` (Base.py lines 558-565):
for each UID that exists in the folder, union the given flags into its
flag set. -/
def addmessagesflags (l : MsgList) (uids : List Int) (fl : Finset Char) : MsgList :=
  uids.foldl (fun acc uid =>
    if uidexists acc uid then updateFlags acc uid (fun s => s ∪ fl) else acc) l

/-- Embedding of `BaseFolder.deletemessagesflags` (Base.py lines
580-587): for each UID remove the given flags from its flag set.  (The
source reads the current flags without an existence check; in the
synchronizer it is only reached for UIDs present in the folder.) -/
def deletemessagesflags (l : MsgList) (uids : List Int) (fl : Finset Char) : MsgList :=
  uids.foldl (fun acc uid => updateFlags acc uid (fun s => s \ fl)) l

/-- Modelled from the spec (section 4.4, LocalStatus backend not under
src/): the status folder's `savemessage` records (flags, time) under
the UID, ignoring the message body. -/
def statusSavemessage (l : MsgList) (uid : Int) (flags : Finset Char) (rtime : Int) :
    MsgList :=
  insertMsg l uid (Msg.mk flags ∅ rtime)

/-- Model of `change_message_uid` (Base.py line 746) for backends that
support it (e.g. Maildir): rebind the message under the new UID. -/
def renameKey (l : MsgList) (olduid newuid : Int) : MsgList :=
  l.map (fun p => if p.1 = olduid then (newuid, p.2) else p)

/-- Combined state of the three folders handled by `syncmessagesto`. -/
structure SyncSt where
  src : MsgList
  dst : MsgList
  status : MsgList
deriving DecidableEq

/-- Observable operations performed while syncing, used to state
temporal properties (what was loaded, transmitted, written). -/
inductive Ev where
  | getmsg (uid : Int)
  | save (uid : Int)
  | statusSave (uid : Int) (flags : Finset Char) (rtime : Int)
  | statusDel (uid : Int)
  | srcDel (uid : Int)
  | changeUid (olduid newuid : Int)
  | msgError
  | warnZero
deriving DecidableEq

/-- Behaviour of `dstfolder.savemessage` as seen by `copymessageto`: a
function from the requested UID, the message and the destination state
to the returned UID and the new destination state (the backends are
dispatched dynamically in the source). -/
abbrev SaveFn := Int → Msg → MsgList → Int × MsgList

/-- Embedding of `BaseFolder.copymessageto` (Base.py lines 773-842):
read flags and time, load the body if the destination stores bodies,
call `dstfolder.savemessage` and dispatch on its result: a positive new
UID records the message in the status folder (renaming the source copy
first when the UID changed); zero deletes the source copy so the next
run re-syncs it; a negative result raises a MESSAGE-severity error
which is caught and logged inside `copymessageto` itself.  The final
boolean is the `have_newmail` contribution. -/
def copymessageto (save : SaveFn) (dstStores : Bool) (uid : Int) (s : SyncSt) :
    SyncSt × List Ev × Bool :=
  match s.src.lookup uid with
  | none => (s, [Ev.msgError], false)
  | some m =>
    let ev0 : List Ev := if dstStores then [Ev.getmsg uid] else []
    let res := save uid m s.dst
    let newUid := res.1
    let dst' := res.2
    if 0 < newUid then
      if newUid ≠ uid then
        (SyncSt.mk (renameKey s.src uid newUid) dst'
            (statusSavemessage (removeKey s.status uid) newUid m.flags m.rtime),
          ev0 ++ [Ev.save uid, Ev.changeUid uid newUid, Ev.statusDel uid,
            Ev.statusSave newUid m.flags m.rtime],
          decide ('S' ∉ m.flags))
      else
        (SyncSt.mk s.src dst' (statusSavemessage s.status newUid m.flags m.rtime),
          ev0 ++ [Ev.save uid, Ev.statusSave newUid m.flags m.rtime],
          decide ('S' ∉ m.flags))
    else if newUid = 0 then
      (SyncSt.mk (removeKey s.src uid) dst' s.status,
        ev0 ++ [Ev.save uid, Ev.srcDel uid], false)
    else
      (SyncSt.mk s.src dst' s.status, ev0 ++ [Ev.save uid, Ev.msgError], false)

/-- Embedding of the UID list Pass 1 iterates over (Base.py lines
862-863): UIDs of the source not yet present in the status folder. -/
def copylistOf (src status : MsgList) : List Int :=
  (sortedKeys src).filter (fun u => !uidexists status u)

/-- Per-UID step of Pass 1 (loop body of `__syncmessagesto_copy`,
Base.py lines 880-913, serial path): UID 0 is skipped with a warning; a
positive UID already present on the destination only records (flags,
time) in the status folder; otherwise the message is copied via
`copymessageto`. -/
def pass1step (save : SaveFn) (dstStores : Bool)
    (acc : SyncSt × List Ev × Bool) (uid : Int) : SyncSt × List Ev × Bool :=
  let s := acc.1
  if uid = 0 then (s, acc.2.1 ++ [Ev.warnZero], acc.2.2)
  else if 0 < uid ∧ uidexists s.dst uid then
    match s.src.lookup uid with
    | none => (s, acc.2.1, acc.2.2)
    | some m =>
      (SyncSt.mk s.src s.dst (statusSavemessage s.status uid m.flags m.rtime),
        acc.2.1 ++ [Ev.statusSave uid m.flags m.rtime], acc.2.2)
  else
    let r := copymessageto save dstStores uid s
    (r.1, acc.2.1 ++ r.2.1, acc.2.2 || r.2.2)

/-- Embedding of Pass 1, `__syncmessagesto_copy` (Base.py lines
844-920): compute the copylist, honor `copy_ignoreUIDs`, return
unchanged in dry-run mode, else fold the per-UID step over the list.
The returned boolean is `have_newmail`. -/
def pass1 (save : SaveFn) (dstStores : Bool) (copyIgnore : Option (List Int))
    (dryrun : Bool) (s : SyncSt) : SyncSt × List Ev × Bool :=
  let copylist := copylistOf s.src s.status
  let numToCopy := copylist.length
  let copylist :=
    match copyIgnore with
    | none => copylist
    | some ig => copylist.filter (fun u => !ig.contains u)
  if 0 < numToCopy ∧ dryrun then (s, [], false)
  else copylist.foldl (pass1step save dstStores) (s, [], false)

/-- State-changing operations Pass 2 can perform, in order. -/
inductive Pass2Op where
  | delStatus (uids : List Int)
  | delDst (uids : List Int)
deriving DecidableEq

/-- Embedding of the delete list of Pass 2 (Base.py lines 934-937):
UIDs in the status folder that are nonnegative, absent from the source,
and either `sync_deletes` is enabled or they are absent from the
destination as well. -/
def pass2deletelist (syncDeletes : Bool) (s : SyncSt) : List Int :=
  (sortedKeys s.status).filter (fun uid =>
    decide (0 ≤ uid) && !uidexists s.src uid &&
      (syncDeletes || !uidexists s.dst uid))

/-- Operation sequence of Pass 2, `__syncmessagesto_delete` (Base.py
lines 922-951): if the delete list is nonempty, first delete it from
the status folder, then delete the sublist of UIDs still existing on
the destination from the destination. -/
def pass2ops (syncDeletes : Bool) (s : SyncSt) : List Pass2Op :=
  if (pass2deletelist syncDeletes s).length ≠ 0 then
    Pass2Op.delStatus (pass2deletelist syncDeletes s) ::
      (if ((pass2deletelist syncDeletes s).filter
            (fun uid => uidexists s.dst uid)).length ≠ 0 then
        [Pass2Op.delDst ((pass2deletelist syncDeletes s).filter
          (fun uid => uidexists s.dst uid))]
      else [])
  else []

/-- Effect of one Pass 2 operation on the folder states. -/
def applyPass2Op (s : SyncSt) : Pass2Op → SyncSt
  | Pass2Op.delStatus uids => SyncSt.mk s.src s.dst (removeKeys s.status uids)
  | Pass2Op.delDst uids => SyncSt.mk s.src (removeKeys s.dst uids) s.status

/-- Embedding of Pass 2: outside dry-run mode, apply the operations in
order. -/
def pass2 (syncDeletes dryrun : Bool) (s : SyncSt) : SyncSt :=
  if dryrun then s else (pass2ops syncDeletes s).foldl applyPass2Op s

/-- Embedding of `BaseFolder.combine_flags_and_keywords` (Base.py lines
953-988): the message's flags, united - when the destination repository
has a keyword map - with the images under the map of those keywords
that the map knows; unknown keywords are dropped with a warning. -/
def combine_flags_and_keywords (kwmap : Option (List (String × Char))) (m : Msg) :
    Finset Char :=
  match kwmap with
  | none => m.flags
  | some km =>
    let known := m.keywords.filter (fun k => (km.lookup k).isSome = true)
    let letters := known.image (fun k => (km.lookup k).getD ' ')
    m.flags ∪ letters

/-- Append a UID to the list stored under a flag in the add/del
dictionaries of Pass 3 (`addflaglist[flag].append(uid)` with
creation of the entry on first use). -/
def assocAppend : List (Char × List Int) → Char → Int → List (Char × List Int)
  | [], f, uid => [(f, [uid])]
  | (g, l) :: rest, f, uid =>
    if g = f then (g, l ++ [uid]) :: rest
    else (g, l) :: assocAppend rest f uid

/-- Sorted list of the elements of a finite set of characters, via
insertion sort (which, unlike mergesort, is structurally recursive and
hence reduces inside the kernel). -/
def finsetSort (fs : Finset Char) : List Char :=
  Quot.liftOn fs.val (fun l => List.insertionSort (fun a b => a ≤ b) l)
    (fun l1 l2 h => List.eq_of_perm_of_sorted
      (((List.perm_insertionSort _ l1).trans h).trans
        (List.perm_insertionSort _ l2).symm)
      (List.sorted_insertionSort _ l1) (List.sorted_insertionSort _ l2))

/-- Register a UID under every flag of a flag set (the inner
`for flag in addflags` loop of Pass 3; the iteration order over the
Python set is immaterial for the result and is fixed here as sorted). -/
def addFlagsFor (assoc : List (Char × List Int)) (fs : Finset Char) (uid : Int) :
    List (Char × List Int) :=
  (finsetSort fs).foldl (fun a f => assocAppend a f uid) assoc

/-- Status-folder flag set Pass 3 compares against (Base.py lines
1012-1015): the stored flags when the UID is tracked, empty
otherwise. -/
def pass3statusflags (s : SyncSt) (uid : Int) : Finset Char :=
  match s.status.lookup uid with
  | some m => m.flags
  | none => (∅ : Finset Char)

/-- Source-side effective flags of Pass 3 (Base.py line 1017): the
combination of the message's flags and mapped keywords. -/
def pass3selfflags (kwmap : Option (List (String × Char))) (s : SyncSt)
    (uid : Int) : Finset Char :=
  match s.src.lookup uid with
  | some m => combine_flags_and_keywords kwmap m
  | none => (∅ : Finset Char)

/-- Loop body of the first phase of Pass 3 (Base.py lines 1006-1030):
skip negative UIDs and UIDs absent from the destination; otherwise
register the UID in the add list for every missing flag and in the
delete list for every stale flag. -/
def pass3buildStep (kwmap : Option (List (String × Char))) (s : SyncSt)
    (acc : List (Char × List Int) × List (Char × List Int)) (uid : Int) :
    List (Char × List Int) × List (Char × List Int) :=
  if uid < 0 ∨ uidexists s.dst uid = false then acc
  else
    (addFlagsFor acc.1
        (pass3selfflags kwmap s uid \ pass3statusflags s uid) uid,
      addFlagsFor acc.2
        (pass3statusflags s uid \ pass3selfflags kwmap s uid) uid)

/-- First phase of Pass 3, `__syncmessagesto_flags` (Base.py lines
1004-1030): walk the source UIDs and build the per-flag add and delete
lists against the status folder. -/
def pass3build (kwmap : Option (List (String × Char))) (s : SyncSt) :
    List (Char × List Int) × List (Char × List Int) :=
  (sortedKeys s.src).foldl (pass3buildStep kwmap s) ([], [])

/-- One add batch of the second phase of Pass 3 (Base.py lines
1032-1037): add the flag to the listed UIDs on the destination and in
the status folder. -/
def applyAddBatch (t : SyncSt) (p : Char × List Int) : SyncSt :=
  SyncSt.mk t.src (addmessagesflags t.dst p.2 {p.1})
    (addmessagesflags t.status p.2 {p.1})

/-- One delete batch of the second phase of Pass 3 (Base.py lines
1039-1044). -/
def applyDelBatch (t : SyncSt) (p : Char × List Int) : SyncSt :=
  SyncSt.mk t.src (deletemessagesflags t.dst p.2 {p.1})
    (deletemessagesflags t.status p.2 {p.1})

/-- Second phase of Pass 3 (Base.py lines 1032-1044): apply each add
batch to destination and status, then each delete batch, skipping the
state changes in dry-run mode. -/
def pass3 (kwmap : Option (List (String × Char))) (dryrun : Bool) (s : SyncSt) :
    SyncSt :=
  let built := pass3build kwmap s
  let s1 := built.1.foldl (fun t p => if dryrun then t else applyAddBatch t p) s
  built.2.foldl (fun t p => if dryrun then t else applyDelBatch t p) s1

/-- Full sync: the three passes in the order fixed by
`syncmessagesto_passes` (Base.py lines 114-118, 1081-1086), in a run
where no pass raises. -/
def fullSync (save : SaveFn) (dstStores : Bool) (copyIgnore : Option (List Int))
    (kwmap : Option (List (String × Char))) (syncDeletes dryrun : Bool)
    (s : SyncSt) : SyncSt :=
  let s1 := (pass1 save dstStores copyIgnore dryrun s).1
  let s2 := pass2 syncDeletes dryrun s1
  pass3 kwmap dryrun s2

/-! ## Basic lemmas about the folder-state operations -/

lemma uidexists_iff_mem_keys (l : MsgList) (u : Int) :
    uidexists l u = true ↔ u ∈ l.map Prod.fst := by
  unfold uidexists
  induction l with
  | nil => simp
  | cons p rest ih =>
    by_cases hk : u = p.1
    · simp [List.lookup, hk]
    · have hbeq : (u == p.1) = false := by
        exact beq_eq_false_iff_ne.mpr hk
      simp [List.lookup, hbeq, ih, hk]

lemma mem_sortedKeys (l : MsgList) (u : Int) :
    u ∈ sortedKeys l ↔ uidexists l u = true := by
  unfold sortedKeys
  rw [(List.perm_insertionSort _ _).mem_iff, List.mem_dedup,
    uidexists_iff_mem_keys]

lemma sortedKeys_nodup (l : MsgList) : (sortedKeys l).Nodup :=
  (List.perm_insertionSort _ _).nodup_iff.mpr (List.nodup_dedup _)

lemma lookup_removeKey (l : MsgList) (u v : Int) :
    (removeKey l u).lookup v = if v = u then none else l.lookup v := by
  induction l with
  | nil => simp [removeKey]
  | cons p rest ih =>
    by_cases hp : p.1 = u
    · have : (p.1 != u) = false := by simp [hp]
      simp only [removeKey, List.filter_cons, this, Bool.false_eq_true, if_false]
      rw [removeKey] at ih
      rw [ih]
      by_cases hv : v = u
      · simp [hv]
      · have hbeq : (v == p.1) = false := beq_eq_false_iff_ne.mpr (by rw [hp]; exact hv)
        simp [List.lookup, hbeq, hv]
    · have : (p.1 != u) = true := by simp [hp]
      simp only [removeKey, List.filter_cons, this, if_true]
      by_cases hv : v = p.1
      · have hbeq : (v == p.1) = true := beq_iff_eq.mpr hv
        have hvu : ¬(v = u) := by rw [hv]; exact hp
        simp [List.lookup, hbeq, hvu]
      · have hbeq : (v == p.1) = false := beq_eq_false_iff_ne.mpr hv
        rw [removeKey] at ih
        simp [List.lookup, hbeq, ih]

lemma uidexists_removeKey (l : MsgList) (u v : Int) :
    uidexists (removeKey l u) v = true ↔ uidexists l v = true ∧ v ≠ u := by
  unfold uidexists
  rw [lookup_removeKey]
  by_cases hv : v = u <;> simp [hv]

lemma uidexists_removeKeys (l : MsgList) (uids : List Int) (v : Int) :
    uidexists (removeKeys l uids) v = true ↔ uidexists l v = true ∧ v ∉ uids := by
  induction uids generalizing l with
  | nil => simp [removeKeys]
  | cons u rest ih =>
    have hstep : removeKeys l (u :: rest) = removeKeys (removeKey l u) rest := rfl
    rw [hstep, ih, uidexists_removeKey]
    simp only [List.mem_cons]
    constructor
    · rintro ⟨⟨h1, h2⟩, h3⟩
      exact ⟨h1, by rintro (rfl | hm) <;> [exact h2 rfl; exact h3 hm]⟩
    · rintro ⟨h1, h2⟩
      exact ⟨⟨h1, fun he => h2 (Or.inl he)⟩, fun hm => h2 (Or.inr hm)⟩

lemma mem_pass2deletelist (sd : Bool) (s : SyncSt) (u : Int) :
    u ∈ pass2deletelist sd s ↔
      uidexists s.status u = true ∧ 0 ≤ u ∧ uidexists s.src u = false ∧
        (sd = true ∨ uidexists s.dst u = false) := by
  unfold pass2deletelist
  rw [List.mem_filter, mem_sortedKeys]
  simp only [Bool.and_eq_true, decide_eq_true_eq, Bool.not_eq_true',
    Bool.or_eq_true]
  tauto

lemma pass2_status_eq (sd : Bool) (s : SyncSt) :
    (pass2 sd false s).status = removeKeys s.status (pass2deletelist sd s) := by
  unfold pass2 pass2ops
  rw [if_neg (by simp : ¬(false = true))]
  by_cases h : (pass2deletelist sd s).length ≠ 0
  · rw [if_pos h]
    by_cases h2 :
        ((pass2deletelist sd s).filter (fun uid => uidexists s.dst uid)).length ≠ 0
    · rw [if_pos h2]
      rfl
    · rw [if_neg h2]
      rfl
  · rw [if_neg h]
    have h0 : pass2deletelist sd s = [] := by
      rcases List.length_eq_zero.mp (by omega : (pass2deletelist sd s).length = 0)
        with h'
      exact h'
    rw [h0]
    rfl

/-- C2 (counterexample): in the scenario src = ∅, dst = status = the
single message 7 with flag S and sync_deletes disabled, Pass 2 leaves
both dst and status unchanged: the status entry for UID 7 is NOT
removed, contradicting the claimed final state status = ∅. -/
theorem pass2_delete_suppressed_counterexample :
    pass2 false false
        (SyncSt.mk [] [(7, Msg.mk {'S'} ∅ 0)] [(7, Msg.mk {'S'} ∅ 0)]) =
      SyncSt.mk [] [(7, Msg.mk {'S'} ∅ 0)] [(7, Msg.mk {'S'} ∅ 0)] ∧
    uidexists (pass2 false false
        (SyncSt.mk [] [(7, Msg.mk {'S'} ∅ 0)] [(7, Msg.mk {'S'} ∅ 0)])).status 7
      = true := by
  constructor
  · rfl
  · rfl

/-- C2 (amended): in Pass 2, a UID is removed from the status folder
iff it is in the status folder, nonnegative, absent from src, and
either sync_deletes is enabled or it is also absent from dst; so with
sync_deletes disabled a status entry whose UID still exists on dst is
kept, and the scenario src = ∅, dst = status = UID 7, sync_deletes off
ends with dst = UID 7 and status = UID 7 (not status = ∅). -/
theorem pass2_status_removal (sd : Bool) (s : SyncSt) (u : Int) :
    uidexists (pass2 sd false s).status u = true ↔
      uidexists s.status u = true ∧
        ¬(0 ≤ u ∧ uidexists s.src u = false ∧
          (sd = true ∨ uidexists s.dst u = false)) := by
  rw [pass2_status_eq, uidexists_removeKeys, mem_pass2deletelist]
  tauto

/-- C2 (witness): the removal criterion applied to the concrete
delete-suppressed scenario at UID 7: the status entry survives. -/
theorem pass2_status_removal_witness :
    uidexists (pass2 false false
        (SyncSt.mk [] [(7, Msg.mk {'S'} ∅ 0)] [(7, Msg.mk {'S'} ∅ 0)])).status 7
      = true := by
  have h := (pass2_status_removal false
    (SyncSt.mk [] [(7, Msg.mk {'S'} ∅ 0)] [(7, Msg.mk {'S'} ∅ 0)]) 7).mpr
    (by refine ⟨by decide, ?_⟩
        rintro ⟨-, -, h | h⟩ <;> exact absurd h (by decide))
  exact h

/-- UIDs deleted from the destination by a sequence of Pass 2
operations. -/
def dstDeletedIn : List Pass2Op → List Int
  | [] => []
  | Pass2Op.delDst uids :: rest => uids ++ dstDeletedIn rest
  | Pass2Op.delStatus _ :: rest => dstDeletedIn rest

/-- C3: in Pass 2, the status-folder deletion strictly precedes any
destination deletion (the operation sequence is at most
[delStatus dl, delDst dl2] with dl2 ⊆ dl); a UID is deleted from the
destination only if sync_deletes is enabled and the UID still exists
on the destination; and after any prefix of the operations, no UID
already deleted from the destination is still present in the status
folder. -/
theorem pass2_status_before_dst (sd : Bool) (s : SyncSt) :
    (pass2ops sd s = [] ∨ (∃ dl, pass2ops sd s = [Pass2Op.delStatus dl]) ∨
      ∃ dl dl2, pass2ops sd s = [Pass2Op.delStatus dl, Pass2Op.delDst dl2] ∧
        ∀ u ∈ dl2, u ∈ dl)
    ∧ (∀ uids, Pass2Op.delDst uids ∈ pass2ops sd s →
        ∀ u ∈ uids, sd = true ∧ uidexists s.dst u = true)
    ∧ (∀ k, ∀ u, u ∈ dstDeletedIn ((pass2ops sd s).take k) →
        uidexists (((pass2ops sd s).take k).foldl applyPass2Op s).status u
          = false) := by
  have hdl2 : ∀ u, u ∈ (pass2deletelist sd s).filter (fun uid => uidexists s.dst uid) →
      u ∈ pass2deletelist sd s ∧ uidexists s.dst u = true := by
    intro u hu
    exact List.mem_filter.mp hu
  have hsd : ∀ u, u ∈ (pass2deletelist sd s).filter (fun uid => uidexists s.dst uid) →
      sd = true := by
    intro u hu
    obtain ⟨h1, h2⟩ := hdl2 u hu
    rcases (mem_pass2deletelist sd s u).mp h1 with ⟨-, -, -, h3 | h3⟩
    · exact h3
    · rw [h2] at h3
      exact absurd h3 (by simp)
  unfold pass2ops
  by_cases h : (pass2deletelist sd s).length ≠ 0
  · rw [if_pos h]
    by_cases h2 :
        ((pass2deletelist sd s).filter (fun uid => uidexists s.dst uid)).length ≠ 0
    · rw [if_pos h2]
      refine ⟨Or.inr (Or.inr ⟨_, _, rfl, ?_⟩), ?_, ?_⟩
      · intro u hu
        exact (hdl2 u hu).1
      · intro uids huids u hu
        simp only [List.mem_cons, List.mem_singleton] at huids
        rcases huids with h' | h' | h'
        · exact absurd h' (by simp)
        · cases h'
          exact ⟨hsd u hu, (hdl2 u hu).2⟩
        · exact absurd h' (List.not_mem_nil _)
      · intro k u hu
        match k with
        | 0 => simp [dstDeletedIn] at hu
        | 1 => simp [List.take, dstDeletedIn] at hu
        | (n + 2) =>
          simp only [List.take_succ_cons, List.take_nil] at hu ⊢
          simp only [dstDeletedIn, List.append_nil] at hu
          have hmem : u ∈ pass2deletelist sd s := (hdl2 u hu).1
          simp only [List.foldl_cons, List.foldl_nil, applyPass2Op]
          cases hb : uidexists (removeKeys s.status (pass2deletelist sd s)) u with
          | false => rfl
          | true => exact absurd hmem ((uidexists_removeKeys _ _ _).mp hb).2
    · rw [if_neg h2]
      refine ⟨Or.inr (Or.inl ⟨_, rfl⟩), ?_, ?_⟩
      · intro uids huids u hu
        simp only [List.mem_singleton] at huids
        exact absurd huids (by simp)
      · intro k u hu
        match k with
        | 0 => simp [dstDeletedIn] at hu
        | (n + 1) =>
          simp only [List.take_succ_cons, List.take_nil] at hu
          simp [dstDeletedIn] at hu
  · rw [if_neg h]
    refine ⟨Or.inl rfl, ?_, ?_⟩
    · intro uids huids
      exact absurd huids (List.not_mem_nil _)
    · intro k u hu
      simp [dstDeletedIn] at hu

lemma lookup_insertMsg (l : MsgList) (u : Int) (m : Msg) (v : Int) :
    (insertMsg l u m).lookup v = if v = u then some m else l.lookup v := by
  induction l with
  | nil =>
    by_cases hv : v = u
    · simp [insertMsg, List.lookup, hv]
    · have hbeq : (v == u) = false := beq_eq_false_iff_ne.mpr hv
      simp [insertMsg, List.lookup, hbeq, hv]
  | cons p rest ih =>
    by_cases hp : p.1 = u
    · rw [show insertMsg (p :: rest) u m = (p.1, m) :: rest by
        rw [insertMsg, if_pos hp]]
      by_cases hv : v = p.1
      · have hbeq : (v == p.1) = true := beq_iff_eq.mpr hv
        simp [List.lookup, hbeq, hv, hp, hv.trans hp]
      · have hbeq : (v == p.1) = false := beq_eq_false_iff_ne.mpr hv
        have hvu : ¬(v = u) := fun h => hv (h.trans hp.symm)
        simp [List.lookup, hbeq, hvu]
    · rw [show insertMsg (p :: rest) u m = (p.1, p.2) :: insertMsg rest u m by
        rw [insertMsg, if_neg hp]]
      by_cases hv : v = p.1
      · have hbeq : (v == p.1) = true := beq_iff_eq.mpr hv
        have hvu : ¬(v = u) := fun h => hp (hv.symm.trans h)
        simp [List.lookup, hbeq, hvu]
      · have hbeq : (v == p.1) = false := beq_eq_false_iff_ne.mpr hv
        simp [List.lookup, hbeq, ih]

lemma uidexists_insertMsg (l : MsgList) (u : Int) (m : Msg) (v : Int) :
    uidexists (insertMsg l u m) v = true ↔ v = u ∨ uidexists l v = true := by
  unfold uidexists
  rw [lookup_insertMsg]
  by_cases hv : v = u <;> simp [hv]

lemma lookup_renameKey (l : MsgList) (v n u : Int) (hv : v ≠ u) (hn : n ≠ u) :
    (renameKey l v n).lookup u = l.lookup u := by
  induction l with
  | nil => rfl
  | cons p rest ih =>
    show (((if p.1 = v then (n, p.2) else p) :: renameKey rest v n).lookup u) = _
    by_cases hp : p.1 = v
    · rw [if_pos hp]
      have h1 : (u == n) = false := beq_eq_false_iff_ne.mpr (fun h => hn h.symm)
      have h2 : (u == p.1) = false :=
        beq_eq_false_iff_ne.mpr (fun h => hv (hp ▸ h.symm ▸ rfl))
      simp [List.lookup, h1, h2, ih]
    · rw [if_neg hp]
      by_cases hu2 : u = p.1
      · have hbeq : (u == p.1) = true := beq_iff_eq.mpr hu2
        simp [List.lookup, hbeq]
      · have hbeq : (u == p.1) = false := beq_eq_false_iff_ne.mpr hu2
        simp [List.lookup, hbeq, ih]

/-- C7: whenever `dstfolder.savemessage` returns 0 inside
`copymessageto`, the source's copy of that UID is deleted, the status
folder is left unchanged, and no status entry is written for it (no
statusSave event occurs in this copy attempt). -/
theorem copymessageto_zero_deletes_src (save : SaveFn) (b : Bool) (u : Int)
    (s : SyncSt) (m : Msg) (hm : s.src.lookup u = some m)
    (h0 : (save u m s.dst).1 = 0) :
    copymessageto save b u s =
      (SyncSt.mk (removeKey s.src u) (save u m s.dst).2 s.status,
        (if b then [Ev.getmsg u] else []) ++ [Ev.save u, Ev.srcDel u], false)
    ∧ ∀ v fl rt, Ev.statusSave v fl rt ∉ (copymessageto save b u s).2.1 := by
  have hcmt : copymessageto save b u s =
      (SyncSt.mk (removeKey s.src u) (save u m s.dst).2 s.status,
        (if b then [Ev.getmsg u] else []) ++ [Ev.save u, Ev.srcDel u], false) := by
    unfold copymessageto
    rw [hm]
    dsimp only
    rw [if_neg (by rw [h0]; exact lt_irrefl 0), if_pos h0]
  refine ⟨hcmt, ?_⟩
  intro v fl rt hmem
  rw [hcmt] at hmem
  rcases List.mem_append.mp hmem with h1 | h1
  · cases b with
    | false => exact absurd h1 (List.not_mem_nil _)
    | true =>
      rcases List.mem_singleton.mp h1 with h2
      exact Ev.noConfusion h2
  · rcases List.mem_cons.mp h1 with h2 | h2
    · exact Ev.noConfusion h2
    · rcases List.mem_singleton.mp h2 with h3
      exact Ev.noConfusion h3

/-- C7 (witness): the zero-return branch on a concrete state with a
destination whose save always returns 0. -/
theorem copymessageto_zero_deletes_src_witness :
    ([((7 : Int), Msg.mk {'S'} ∅ 0)].lookup 7 = some (Msg.mk {'S'} ∅ 0)
      ∧ (((fun (_ : Int) (_ : Msg) (d : MsgList) => ((0 : Int), d)) :
            SaveFn) 7 (Msg.mk {'S'} ∅ 0) []).1 = 0)
    ∧ (copymessageto (fun _ _ d => (0, d)) true 7
        (SyncSt.mk [(7, Msg.mk {'S'} ∅ 0)] [] [])).1.src = [] := by
  refine ⟨⟨by decide, rfl⟩, ?_⟩
  rw [(copymessageto_zero_deletes_src (fun _ _ d => ((0 : Int), d)) true 7
    (SyncSt.mk [(7, Msg.mk {'S'} ∅ 0)] [] []) (Msg.mk {'S'} ∅ 0)
    (by decide) rfl).1]
  decide

lemma copymessageto_pres (save : SaveFn) (b : Bool) (v u : Int) (s : SyncSt)
    (hv : v ≠ u)
    (hcoll : ∀ vv mm d, vv ≠ u → ((save vv mm d).1) ≠ u)
    (hmono : ∀ vv mm d w, uidexists d w = true →
      uidexists ((save vv mm d).2) w = true) :
    (copymessageto save b v s).1.src.lookup u = s.src.lookup u ∧
    (uidexists s.dst u = true →
      uidexists (copymessageto save b v s).1.dst u = true) := by
  unfold copymessageto
  cases hlk : s.src.lookup v with
  | none => exact ⟨rfl, fun h => h⟩
  | some mv =>
    dsimp only
    by_cases h1 : 0 < (save v mv s.dst).1
    · rw [if_pos h1]
      by_cases h2 : (save v mv s.dst).1 ≠ v
      · rw [if_pos h2]
        refine ⟨?_, fun h => hmono v mv s.dst u h⟩
        exact lookup_renameKey s.src v _ u hv (hcoll v mv s.dst hv)
      · rw [if_neg h2]
        exact ⟨rfl, fun h => hmono v mv s.dst u h⟩
    · rw [if_neg h1]
      by_cases h3 : (save v mv s.dst).1 = 0
      · rw [if_pos h3]
        refine ⟨?_, fun h => hmono v mv s.dst u h⟩
        rw [show (SyncSt.mk (removeKey s.src v) (save v mv s.dst).2 s.status,
            (if b then [Ev.getmsg v] else []) ++ [Ev.save v, Ev.srcDel v],
            false).1.src = removeKey s.src v from rfl]
        rw [lookup_removeKey]
        rw [if_neg (fun h => hv h.symm)]
      · rw [if_neg h3]
        exact ⟨rfl, fun h => hmono v mv s.dst u h⟩

lemma copymessageto_events (save : SaveFn) (b : Bool) (v : Int) (s : SyncSt) :
    (∀ w, Ev.getmsg w ∈ (copymessageto save b v s).2.1 → w = v) ∧
    (∀ w, Ev.save w ∈ (copymessageto save b v s).2.1 → w = v) := by
  have hev0 : ∀ e, e ∈ (if b then [Ev.getmsg v] else []) → e = Ev.getmsg v := by
    intro e he
    cases b with
    | false => exact absurd he (List.not_mem_nil _)
    | true => exact List.mem_singleton.mp he
  unfold copymessageto
  cases hlk : s.src.lookup v with
  | none =>
    dsimp only
    constructor <;> intro w hw <;> rcases List.mem_singleton.mp hw with h <;>
      exact Ev.noConfusion h
  | some mv =>
    dsimp only
    by_cases h1 : 0 < (save v mv s.dst).1
    · rw [if_pos h1]
      by_cases h2 : (save v mv s.dst).1 ≠ v
      · rw [if_pos h2]
        constructor <;> intro w hw <;>
          rcases List.mem_append.mp hw with h | h
        · have h' := hev0 _ h
          injection h'
        · simp only [List.mem_cons, List.not_mem_nil, or_false] at h
          rcases h with h | h | h | h <;> exact Ev.noConfusion h
        · exact absurd (hev0 _ h) (by simp)
        · simp only [List.mem_cons, List.not_mem_nil, or_false] at h
          rcases h with h | h | h | h
          · injection h
          · exact Ev.noConfusion h
          · exact Ev.noConfusion h
          · exact Ev.noConfusion h
      · rw [if_neg h2]
        constructor <;> intro w hw <;>
          rcases List.mem_append.mp hw with h | h
        · have h' := hev0 _ h
          injection h'
        · simp only [List.mem_cons, List.not_mem_nil, or_false] at h
          rcases h with h | h <;> exact Ev.noConfusion h
        · exact absurd (hev0 _ h) (by simp)
        · simp only [List.mem_cons, List.not_mem_nil, or_false] at h
          rcases h with h | h
          · injection h
          · exact Ev.noConfusion h
    · rw [if_neg h1]
      by_cases h3 : (save v mv s.dst).1 = 0
      · rw [if_pos h3]
        constructor <;> intro w hw <;>
          rcases List.mem_append.mp hw with h | h
        · have h' := hev0 _ h
          injection h'
        · simp only [List.mem_cons, List.not_mem_nil, or_false] at h
          rcases h with h | h <;> exact Ev.noConfusion h
        · exact absurd (hev0 _ h) (by simp)
        · simp only [List.mem_cons, List.not_mem_nil, or_false] at h
          rcases h with h | h
          · injection h
          · exact Ev.noConfusion h
      · rw [if_neg h3]
        constructor <;> intro w hw <;>
          rcases List.mem_append.mp hw with h | h
        · have h' := hev0 _ h
          injection h'
        · simp only [List.mem_cons, List.not_mem_nil, or_false] at h
          rcases h with h | h <;> exact Ev.noConfusion h
        · exact absurd (hev0 _ h) (by simp)
        · simp only [List.mem_cons, List.not_mem_nil, or_false] at h
          rcases h with h | h
          · injection h
          · exact Ev.noConfusion h

lemma pass1step_pres (save : SaveFn) (b : Bool) (u : Int)
    (hcoll : ∀ vv mm d, vv ≠ u → ((save vv mm d).1) ≠ u)
    (hmono : ∀ vv mm d w, uidexists d w = true →
      uidexists ((save vv mm d).2) w = true)
    (acc : SyncSt × List Ev × Bool) (v : Int) (hv : v ≠ u) :
    (pass1step save b acc v).1.src.lookup u = acc.1.src.lookup u ∧
    (uidexists acc.1.dst u = true →
      uidexists (pass1step save b acc v).1.dst u = true) ∧
    ∃ evNew, (pass1step save b acc v).2.1 = acc.2.1 ++ evNew ∧
      (∀ w, Ev.getmsg w ∈ evNew → w = v) ∧
      (∀ w, Ev.save w ∈ evNew → w = v) := by
  unfold pass1step
  by_cases h0 : v = 0
  · rw [if_pos h0]
    refine ⟨rfl, fun h => h, [Ev.warnZero], rfl, ?_, ?_⟩ <;> intro w hw <;>
      rcases List.mem_singleton.mp hw with h <;> exact Ev.noConfusion h
  · rw [if_neg h0]
    by_cases h1 : 0 < v ∧ uidexists acc.1.dst v = true
    · rw [if_pos h1]
      cases hlk : acc.1.src.lookup v with
      | none =>
        dsimp only
        exact ⟨rfl, fun h => h, [], (List.append_nil _).symm,
          fun w hw => absurd hw (List.not_mem_nil _),
          fun w hw => absurd hw (List.not_mem_nil _)⟩
      | some mv =>
        dsimp only
        refine ⟨rfl, fun h => h, [Ev.statusSave v mv.flags mv.rtime], rfl, ?_, ?_⟩ <;>
          intro w hw <;> rcases List.mem_singleton.mp hw with h <;>
          exact Ev.noConfusion h
    · rw [if_neg h1]
      dsimp only
      obtain ⟨hsrc, hdst⟩ := copymessageto_pres save b v u acc.1 hv hcoll hmono
      obtain ⟨hgm, hsv⟩ := copymessageto_events save b v acc.1
      exact ⟨hsrc, hdst, (copymessageto save b v acc.1).2.1, rfl, hgm, hsv⟩

lemma pass1fold_pres (save : SaveFn) (b : Bool) (u : Int)
    (hcoll : ∀ vv mm d, vv ≠ u → ((save vv mm d).1) ≠ u)
    (hmono : ∀ vv mm d w, uidexists d w = true →
      uidexists ((save vv mm d).2) w = true) :
    ∀ (L : List Int), u ∉ L → ∀ (acc : SyncSt × List Ev × Bool),
    ((L.foldl (pass1step save b) acc).1.src.lookup u = acc.1.src.lookup u) ∧
    (uidexists acc.1.dst u = true →
      uidexists ((L.foldl (pass1step save b) acc).1.dst) u = true) ∧
    (∀ e, e ∈ acc.2.1 → e ∈ (L.foldl (pass1step save b) acc).2.1) ∧
    (Ev.getmsg u ∉ acc.2.1 →
      Ev.getmsg u ∉ (L.foldl (pass1step save b) acc).2.1) ∧
    (Ev.save u ∉ acc.2.1 →
      Ev.save u ∉ (L.foldl (pass1step save b) acc).2.1) := by
  intro L
  induction L with
  | nil =>
    intro _ acc
    exact ⟨rfl, fun h => h, fun e he => he, fun h => h, fun h => h⟩
  | cons v rest ih =>
    intro hu acc
    have hvne : v ≠ u := fun h => hu (h ▸ List.mem_cons_self v rest)
    have hrest : u ∉ rest := fun h => hu (List.mem_cons_of_mem _ h)
    obtain ⟨hsrc, hdst, evNew, hev, hgm, hsv⟩ :=
      pass1step_pres save b u hcoll hmono acc v hvne
    have hfold := ih hrest (pass1step save b acc v)
    rw [List.foldl_cons]
    refine ⟨hfold.1.trans hsrc, fun h => hfold.2.1 (hdst h), ?_, ?_, ?_⟩
    · intro e he
      exact hfold.2.2.1 e (by rw [hev]; exact List.mem_append_left _ he)
    · intro hnot
      refine hfold.2.2.2.1 ?_
      rw [hev]
      intro hmem
      rcases List.mem_append.mp hmem with h | h
      · exact hnot h
      · exact hvne ((hgm u h).symm ▸ rfl)
    · intro hnot
      refine hfold.2.2.2.2 ?_
      rw [hev]
      intro hmem
      rcases List.mem_append.mp hmem with h | h
      · exact hnot h
      · exact hvne ((hsv u h).symm ▸ rfl)

lemma pass1step_record (save : SaveFn) (b : Bool) (acc : SyncSt × List Ev × Bool)
    (u : Int) (m : Msg) (hm : acc.1.src.lookup u = some m) (hu : 0 < u)
    (hdst : uidexists acc.1.dst u = true) :
    pass1step save b acc u =
      (SyncSt.mk acc.1.src acc.1.dst
          (statusSavemessage acc.1.status u m.flags m.rtime),
        acc.2.1 ++ [Ev.statusSave u m.flags m.rtime], acc.2.2) := by
  unfold pass1step
  rw [if_neg (by omega : ¬(u = 0)), if_pos ⟨hu, hdst⟩, hm]

/-- C6: in Pass 1, for a uid > 0 present in src but not in status such
that dst already contains that uid, the pass records (flags, time) from
src into the status folder under that same uid and neither loads the
message body from src nor transmits it to dst (no getmsg and no save
event for that uid occurs anywhere in the pass).  The save behaviour of
the destination is assumed to preserve existing destination UIDs and to
assign UIDs that do not collide with the uid under consideration. -/
theorem pass1_record_only (save : SaveFn) (b : Bool) (s : SyncSt) (u : Int)
    (m : Msg)
    (hmono : ∀ vv mm d w, uidexists d w = true →
      uidexists ((save vv mm d).2) w = true)
    (hcoll : ∀ vv mm d, vv ≠ u → ((save vv mm d).1) ≠ u)
    (hu : 0 < u) (hsrc : s.src.lookup u = some m)
    (hst : uidexists s.status u = false) (hdst : uidexists s.dst u = true) :
    Ev.statusSave u m.flags m.rtime ∈ (pass1 save b none false s).2.1 ∧
    Ev.getmsg u ∉ (pass1 save b none false s).2.1 ∧
    Ev.save u ∉ (pass1 save b none false s).2.1 := by
  have hp1 : pass1 save b none false s =
      (copylistOf s.src s.status).foldl (pass1step save b) (s, [], false) := by
    unfold pass1
    rw [if_neg (by rintro ⟨-, h⟩; exact absurd h (by simp))]
  have humem : u ∈ copylistOf s.src s.status := by
    unfold copylistOf
    rw [List.mem_filter, mem_sortedKeys]
    refine ⟨?_, ?_⟩
    · unfold uidexists
      rw [hsrc]
      rfl
    · rw [hst]
      rfl
  have hnd : (copylistOf s.src s.status).Nodup :=
    (sortedKeys_nodup s.src).filter _
  obtain ⟨l1, l2, hsplit⟩ := List.append_of_mem humem
  rw [hsplit] at hnd
  rw [List.nodup_append] at hnd
  have hu1 : u ∉ l1 := fun h => hnd.2.2 h (List.mem_cons_self u l2)
  have hu2 : u ∉ l2 := (List.nodup_cons.mp hnd.2.1).1
  rw [hp1, hsplit, List.foldl_append, List.foldl_cons]
  have hpres1 := pass1fold_pres save b u hcoll hmono l1 hu1 (s, [], false)
  have hsrc1 : (l1.foldl (pass1step save b) (s, [], false)).1.src.lookup u
      = some m := hpres1.1.trans hsrc
  have hdst1 : uidexists (l1.foldl (pass1step save b) (s, [], false)).1.dst u
      = true := hpres1.2.1 hdst
  rw [pass1step_record save b _ u m hsrc1 hu hdst1]
  have hpres2 := pass1fold_pres save b u hcoll hmono l2 hu2
    (SyncSt.mk (l1.foldl (pass1step save b) (s, [], false)).1.src
        (l1.foldl (pass1step save b) (s, [], false)).1.dst
        (statusSavemessage (l1.foldl (pass1step save b) (s, [], false)).1.status
          u m.flags m.rtime),
      (l1.foldl (pass1step save b) (s, [], false)).2.1 ++
        [Ev.statusSave u m.flags m.rtime],
      (l1.foldl (pass1step save b) (s, [], false)).2.2)
  refine ⟨?_, ?_, ?_⟩
  · exact hpres2.2.2.1 _ (List.mem_append_right _ (List.mem_singleton.mpr rfl))
  · refine hpres2.2.2.2.1 ?_
    intro hmem
    rcases List.mem_append.mp hmem with h | h
    · have hgm1 : Ev.getmsg u ∉ (l1.foldl (pass1step save b) (s, [], false)).2.1 :=
        hpres1.2.2.2.1 (List.not_mem_nil _)
      exact hgm1 h
    · rcases List.mem_singleton.mp h with h'
      exact Ev.noConfusion h'
  · refine hpres2.2.2.2.2 ?_
    intro hmem
    rcases List.mem_append.mp hmem with h | h
    · have hsv1 : Ev.save u ∉ (l1.foldl (pass1step save b) (s, [], false)).2.1 :=
        hpres1.2.2.2.2 (List.not_mem_nil _)
      exact hsv1 h
    · rcases List.mem_singleton.mp h with h'
      exact Ev.noConfusion h'

/-- C6 (witness): the record-only theorem applied to a concrete state
(src = dst = UID 7 flagged S, status empty) with the UID-preserving
save behaviour. -/
theorem pass1_record_only_witness :
    Ev.statusSave 7 ({'S'} : Finset Char) 0 ∈
      (pass1 (fun v mm d => (v, insertMsg d v mm)) true none false
        (SyncSt.mk [(7, Msg.mk {'S'} ∅ 0)] [(7, Msg.mk {'F'} ∅ 0)] [])).2.1 := by
  have h := pass1_record_only (fun v mm d => (v, insertMsg d v mm)) true
    (SyncSt.mk [(7, Msg.mk {'S'} ∅ 0)] [(7, Msg.mk {'F'} ∅ 0)] []) 7
    (Msg.mk {'S'} ∅ 0)
    (by intro vv mm d w hw
        exact (uidexists_insertMsg d vv mm w).mpr (Or.inr hw))
    (fun vv mm d hne => hne)
    (by decide) (by decide) (by decide) (by decide)
  exact h.1

/-- C3 (witness): in the delete-propagation scenario (src empty,
dst = status = UID 7, sync_deletes on), after both Pass 2 operations
UID 7 is gone from the status folder. -/
theorem pass2_status_before_dst_witness :
    uidexists (((pass2ops true
        (SyncSt.mk [] [(7, Msg.mk {'S'} ∅ 0)] [(7, Msg.mk {'S'} ∅ 0)])).take 2).foldl
      applyPass2Op
      (SyncSt.mk [] [(7, Msg.mk {'S'} ∅ 0)] [(7, Msg.mk {'S'} ∅ 0)])).status 7
      = false := by
  have h := (pass2_status_before_dst true
    (SyncSt.mk [] [(7, Msg.mk {'S'} ∅ 0)] [(7, Msg.mk {'S'} ∅ 0)])).2.2 2 7
  exact h (by decide)

/-! ## Pass 3 characterization -/

lemma msg_eta (m : Msg) : Msg.mk m.flags m.keywords m.rtime = m := rfl

lemma lookup_updateFlags (l : MsgList) (v : Int) (g : Finset Char → Finset Char)
    (w : Int) :
    (updateFlags l v g).lookup w =
      if w = v then
        (l.lookup w).map (fun mm => Msg.mk (g mm.flags) mm.keywords mm.rtime)
      else l.lookup w := by
  induction l with
  | nil => by_cases hw : w = v <;> simp [updateFlags, hw]
  | cons p rest ih =>
    show ((if p.1 = v then (p.1, Msg.mk (g p.2.flags) p.2.keywords p.2.rtime)
        else p) :: updateFlags rest v g).lookup w = _
    by_cases hw : w = p.1
    · subst hw
      by_cases hp : p.1 = v
      · rw [if_pos hp]
        simp [List.lookup, hp]
      · rw [if_neg hp]
        simp [List.lookup, hp]
    · have hbeq : (w == p.1) = false := beq_eq_false_iff_ne.mpr hw
      by_cases hp : p.1 = v
      · rw [if_pos hp]
        simp only [List.lookup, hbeq]
        exact ih
      · rw [if_neg hp]
        simp only [List.lookup, hbeq]
        exact ih

lemma lookup_addmessagesflags (uids : List Int) (l : MsgList) (fl : Finset Char)
    (u : Int) :
    (addmessagesflags l uids fl).lookup u =
      (l.lookup u).map (fun mm =>
        if u ∈ uids then Msg.mk (mm.flags ∪ fl) mm.keywords mm.rtime else mm) := by
  induction uids generalizing l with
  | nil =>
    show l.lookup u = _
    cases l.lookup u with
    | none => rfl
    | some mm => simp
  | cons v rest ih =>
    show (addmessagesflags
        (if uidexists l v then updateFlags l v (fun s => s ∪ fl) else l)
        rest fl).lookup u = _
    rw [ih]
    by_cases hex : uidexists l v
    · rw [if_pos hex, lookup_updateFlags]
      by_cases huv : u = v
      · rw [if_pos huv]
        cases hlk : l.lookup u with
        | none => rfl
        | some mm =>
          rw [Option.map_some', Option.map_some', Option.map_some']
          by_cases hur : u ∈ rest
          · rw [if_pos hur,
              if_pos (show u ∈ v :: rest from List.mem_cons_of_mem _ hur)]
            rw [Finset.union_assoc, Finset.union_self]
          · rw [if_neg hur,
              if_pos (show u ∈ v :: rest from huv ▸ List.mem_cons_self v rest)]
      · rw [if_neg huv]
        have hmem : (u ∈ v :: rest) = (u ∈ rest) := by
          simp [List.mem_cons, huv]
        simp only [hmem]
    · rw [if_neg hex]
      cases hlk : l.lookup u with
      | none => rfl
      | some mm =>
        have huv : ¬(u = v) := by
          intro h
          rw [h] at hlk
          refine hex ?_
          unfold uidexists
          rw [hlk]
          rfl
        have hmem : (u ∈ v :: rest) = (u ∈ rest) := by
          simp [List.mem_cons, huv]
        simp only [hmem]

lemma lookup_deletemessagesflags (uids : List Int) (l : MsgList)
    (fl : Finset Char) (u : Int) :
    (deletemessagesflags l uids fl).lookup u =
      (l.lookup u).map (fun mm =>
        if u ∈ uids then Msg.mk (mm.flags \ fl) mm.keywords mm.rtime else mm) := by
  induction uids generalizing l with
  | nil =>
    show l.lookup u = _
    cases l.lookup u with
    | none => rfl
    | some mm => simp
  | cons v rest ih =>
    show (deletemessagesflags (updateFlags l v (fun s => s \ fl))
        rest fl).lookup u = _
    rw [ih, lookup_updateFlags]
    by_cases huv : u = v
    · rw [if_pos huv]
      cases hlk : l.lookup u with
      | none => rfl
      | some mm =>
        rw [Option.map_some', Option.map_some', Option.map_some']
        by_cases hur : u ∈ rest
        · rw [if_pos hur,
            if_pos (show u ∈ v :: rest from List.mem_cons_of_mem _ hur)]
          have hid : (mm.flags \ fl) \ fl = mm.flags \ fl := by
            ext a
            simp only [Finset.mem_sdiff]
            tauto
          rw [hid]
        · rw [if_neg hur,
            if_pos (show u ∈ v :: rest from huv ▸ List.mem_cons_self v rest)]
    · rw [if_neg huv]
      have hmem : (u ∈ v :: rest) = (u ∈ rest) := by
        simp [List.mem_cons, huv]
      simp only [hmem]

/-- Union of the flags whose batch lists contain the given UID, over an
add/delete dictionary. -/
def flagsFromAssoc : List (Char × List Int) → Int → Finset Char
  | [], _ => ∅
  | p :: rest, u =>
    (if u ∈ p.2 then ({p.1} : Finset Char) else ∅) ∪ flagsFromAssoc rest u

lemma mem_flagsFromAssoc (A : List (Char × List Int)) (u : Int) (f : Char) :
    f ∈ flagsFromAssoc A u ↔ ∃ p ∈ A, p.1 = f ∧ u ∈ p.2 := by
  induction A with
  | nil => simp [flagsFromAssoc]
  | cons p rest ih =>
    simp only [flagsFromAssoc, Finset.mem_union, ih, List.mem_cons]
    by_cases hu : u ∈ p.2
    · simp only [hu, if_true, Finset.mem_singleton]
      constructor
      · rintro (rfl | ⟨q, hq, h1, h2⟩)
        · exact ⟨p, Or.inl rfl, rfl, hu⟩
        · exact ⟨q, Or.inr hq, h1, h2⟩
      · rintro ⟨q, rfl | hq, h1, h2⟩
        · exact Or.inl h1.symm
        · exact Or.inr ⟨q, hq, h1, h2⟩
    · simp only [hu, if_false, Finset.not_mem_empty, false_or]
      constructor
      · rintro ⟨q, hq, h1, h2⟩
        exact ⟨q, Or.inr hq, h1, h2⟩
      · rintro ⟨q, rfl | hq, h1, h2⟩
        · exact absurd h2 hu
        · exact ⟨q, hq, h1, h2⟩

lemma flagsFromAssoc_cons (p : Char × List Int) (rest : List (Char × List Int))
    (u : Int) :
    flagsFromAssoc (p :: rest) u =
      (if u ∈ p.2 then ({p.1} : Finset Char) else ∅) ∪ flagsFromAssoc rest u := rfl

lemma lookup_applyAddBatches (A : List (Char × List Int)) (t : SyncSt) (u : Int) :
    ((A.foldl applyAddBatch t).status.lookup u =
      (t.status.lookup u).map (fun mm =>
        Msg.mk (mm.flags ∪ flagsFromAssoc A u) mm.keywords mm.rtime))
    ∧ ((A.foldl applyAddBatch t).dst.lookup u =
      (t.dst.lookup u).map (fun mm =>
        Msg.mk (mm.flags ∪ flagsFromAssoc A u) mm.keywords mm.rtime))
    ∧ (A.foldl applyAddBatch t).src = t.src := by
  induction A generalizing t with
  | nil =>
    refine ⟨?_, ?_, rfl⟩ <;>
      simp only [List.foldl_nil, flagsFromAssoc, Finset.union_empty, msg_eta,
        Option.map_id']
  | cons p rest ih =>
    have hstep := ih (applyAddBatch t p)
    rw [List.foldl_cons]
    have hfn : ∀ ll : MsgList,
        ((addmessagesflags ll p.2 {p.1}).lookup u).map
            (fun mm => Msg.mk (mm.flags ∪ flagsFromAssoc rest u)
              mm.keywords mm.rtime) =
          (ll.lookup u).map (fun mm =>
            Msg.mk (mm.flags ∪ flagsFromAssoc (p :: rest) u)
              mm.keywords mm.rtime) := by
      intro ll
      rw [lookup_addmessagesflags]
      cases hlk : ll.lookup u with
      | none => rfl
      | some mm =>
        rw [Option.map_some', Option.map_some', Option.map_some']
        by_cases hu : u ∈ p.2
        · rw [if_pos hu]
          rw [flagsFromAssoc_cons, if_pos hu, Finset.union_assoc]
        · rw [if_neg hu]
          rw [flagsFromAssoc_cons, if_neg hu, Finset.empty_union]
    refine ⟨?_, ?_, ?_⟩
    · rw [hstep.1]
      exact hfn t.status
    · rw [hstep.2.1]
      exact hfn t.dst
    · rw [hstep.2.2]
      rfl

lemma lookup_applyDelBatches (D : List (Char × List Int)) (t : SyncSt) (u : Int) :
    ((D.foldl applyDelBatch t).status.lookup u =
      (t.status.lookup u).map (fun mm =>
        Msg.mk (mm.flags \ flagsFromAssoc D u) mm.keywords mm.rtime))
    ∧ ((D.foldl applyDelBatch t).dst.lookup u =
      (t.dst.lookup u).map (fun mm =>
        Msg.mk (mm.flags \ flagsFromAssoc D u) mm.keywords mm.rtime))
    ∧ (D.foldl applyDelBatch t).src = t.src := by
  induction D generalizing t with
  | nil =>
    refine ⟨?_, ?_, rfl⟩ <;>
      simp only [List.foldl_nil, flagsFromAssoc, Finset.sdiff_empty, msg_eta,
        Option.map_id']
  | cons p rest ih =>
    have hstep := ih (applyDelBatch t p)
    rw [List.foldl_cons]
    have hfn : ∀ ll : MsgList,
        ((deletemessagesflags ll p.2 {p.1}).lookup u).map
            (fun mm => Msg.mk (mm.flags \ flagsFromAssoc rest u)
              mm.keywords mm.rtime) =
          (ll.lookup u).map (fun mm =>
            Msg.mk (mm.flags \ flagsFromAssoc (p :: rest) u)
              mm.keywords mm.rtime) := by
      intro ll
      rw [lookup_deletemessagesflags]
      cases hlk : ll.lookup u with
      | none => rfl
      | some mm =>
        rw [Option.map_some', Option.map_some', Option.map_some']
        by_cases hu : u ∈ p.2
        · rw [if_pos hu]
          rw [flagsFromAssoc_cons, if_pos hu]
          congr 1
          have : (mm.flags \ {p.1}) \ flagsFromAssoc rest u =
              mm.flags \ ({p.1} ∪ flagsFromAssoc rest u) := by
            ext a
            simp only [Finset.mem_sdiff, Finset.mem_union]
            tauto
          rw [this]
        · rw [if_neg hu]
          rw [flagsFromAssoc_cons, if_neg hu, Finset.empty_union]
    refine ⟨?_, ?_, ?_⟩
    · rw [hstep.1]
      exact hfn t.status
    · rw [hstep.2.1]
      exact hfn t.dst
    · rw [hstep.2.2]
      rfl

lemma mem_finsetSort (fs : Finset Char) (c : Char) :
    c ∈ finsetSort fs ↔ c ∈ fs := by
  cases fs with
  | mk val nodup =>
    induction val using Quotient.inductionOn with
    | h l =>
      show c ∈ List.insertionSort (fun a b => a ≤ b) l ↔ _
      rw [(List.perm_insertionSort _ l).mem_iff]
      simp [Finset.mem_mk]

lemma exists_mem_assocAppend (a : List (Char × List Int)) (f : Char) (v : Int)
    (c : Char) (w : Int) :
    (∃ p ∈ assocAppend a f v, p.1 = c ∧ w ∈ p.2) ↔
      (∃ p ∈ a, p.1 = c ∧ w ∈ p.2) ∨ (f = c ∧ w = v) := by
  induction a with
  | nil =>
    show (∃ p ∈ [(f, [v])], p.1 = c ∧ w ∈ p.2) ↔ _
    constructor
    · rintro ⟨p, hp, hc, hw⟩
      rcases List.mem_singleton.mp hp with rfl
      exact Or.inr ⟨hc, List.mem_singleton.mp hw⟩
    · rintro (⟨p, hp, -, -⟩ | ⟨hfc, rfl⟩)
      · exact absurd hp (List.not_mem_nil _)
      · exact ⟨(f, [w]), List.mem_singleton.mpr rfl, hfc,
          List.mem_singleton.mpr rfl⟩
  | cons q rest ih =>
    show (∃ p ∈ (if q.1 = f then (q.1, q.2 ++ [v]) :: rest
        else q :: assocAppend rest f v), p.1 = c ∧ w ∈ p.2) ↔ _
    by_cases hq : q.1 = f
    · rw [if_pos hq]
      constructor
      · rintro ⟨p, hp, hc, hw⟩
        rcases List.mem_cons.mp hp with rfl | hp'
        · rcases List.mem_append.mp hw with hw' | hw'
          · exact Or.inl ⟨q, List.mem_cons_self q rest, hc, hw'⟩
          · exact Or.inr ⟨hq.symm.trans hc, List.mem_singleton.mp hw'⟩
        · exact Or.inl ⟨p, List.mem_cons_of_mem _ hp', hc, hw⟩
      · rintro (⟨p, hp, hc, hw⟩ | ⟨hfc, rfl⟩)
        · rcases List.mem_cons.mp hp with rfl | hp'
          · exact ⟨(p.1, p.2 ++ [v]), List.mem_cons_self _ _, hc,
              List.mem_append_left _ hw⟩
          · exact ⟨p, List.mem_cons_of_mem _ hp', hc, hw⟩
        · exact ⟨(q.1, q.2 ++ [w]), List.mem_cons_self _ _, hq.trans hfc,
            List.mem_append_right _ (List.mem_singleton.mpr rfl)⟩
    · rw [if_neg hq]
      constructor
      · rintro ⟨p, hp, hc, hw⟩
        rcases List.mem_cons.mp hp with rfl | hp'
        · exact Or.inl ⟨p, List.mem_cons_self _ _, hc, hw⟩
        · rcases ih.mp ⟨p, hp', hc, hw⟩ with h | h
          · rcases h with ⟨p', hp'', hc', hw'⟩
            exact Or.inl ⟨p', List.mem_cons_of_mem _ hp'', hc', hw'⟩
          · exact Or.inr h
      · rintro (⟨p, hp, hc, hw⟩ | h)
        · rcases List.mem_cons.mp hp with rfl | hp'
          · exact ⟨p, List.mem_cons_self _ _, hc, hw⟩
          · rcases ih.mpr (Or.inl ⟨p, hp', hc, hw⟩) with ⟨p', hp'', hc', hw'⟩
            exact ⟨p', List.mem_cons_of_mem _ hp'', hc', hw'⟩
        · rcases ih.mpr (Or.inr h) with ⟨p', hp'', hc', hw'⟩
          exact ⟨p', List.mem_cons_of_mem _ hp'', hc', hw'⟩

lemma exists_mem_foldAppend (fl : List Char) :
    ∀ (a : List (Char × List Int)) (v : Int) (c : Char) (w : Int),
    (∃ p ∈ fl.foldl (fun acc f => assocAppend acc f v) a, p.1 = c ∧ w ∈ p.2) ↔
      (∃ p ∈ a, p.1 = c ∧ w ∈ p.2) ∨ (c ∈ fl ∧ w = v) := by
  induction fl with
  | nil =>
    intro a v c w
    simp
  | cons f0 rest ih =>
    intro a v c w
    rw [List.foldl_cons, ih, exists_mem_assocAppend]
    simp only [List.mem_cons]
    constructor
    · rintro ((h | ⟨hfc, hwv⟩) | ⟨hcr, hwv⟩)
      · exact Or.inl h
      · exact Or.inr ⟨Or.inl hfc.symm, hwv⟩
      · exact Or.inr ⟨Or.inr hcr, hwv⟩
    · rintro (h | ⟨hcf | hcr, hwv⟩)
      · exact Or.inl (Or.inl h)
      · exact Or.inl (Or.inr ⟨hcf.symm, hwv⟩)
      · exact Or.inr ⟨hcr, hwv⟩

lemma exists_mem_addFlagsFor (a : List (Char × List Int)) (fs : Finset Char)
    (v : Int) (c : Char) (w : Int) :
    (∃ p ∈ addFlagsFor a fs v, p.1 = c ∧ w ∈ p.2) ↔
      (∃ p ∈ a, p.1 = c ∧ w ∈ p.2) ∨ (c ∈ fs ∧ w = v) := by
  unfold addFlagsFor
  rw [exists_mem_foldAppend]
  rw [show (c ∈ finsetSort fs) = (c ∈ fs) from by
    rw [mem_finsetSort]]

lemma exists_mem_pass3build_fold (kwmap : Option (List (String × Char)))
    (s2 : SyncSt) (c : Char) (w : Int) :
    ∀ (L : List Int) (acc : List (Char × List Int) × List (Char × List Int)),
    ((∃ p ∈ (L.foldl (pass3buildStep kwmap s2) acc).1, p.1 = c ∧ w ∈ p.2) ↔
      ((∃ p ∈ acc.1, p.1 = c ∧ w ∈ p.2) ∨
        (w ∈ L ∧ ¬(w < 0 ∨ uidexists s2.dst w = false) ∧
          c ∈ pass3selfflags kwmap s2 w \ pass3statusflags s2 w)))
    ∧ ((∃ p ∈ (L.foldl (pass3buildStep kwmap s2) acc).2, p.1 = c ∧ w ∈ p.2) ↔
      ((∃ p ∈ acc.2, p.1 = c ∧ w ∈ p.2) ∨
        (w ∈ L ∧ ¬(w < 0 ∨ uidexists s2.dst w = false) ∧
          c ∈ pass3statusflags s2 w \ pass3selfflags kwmap s2 w))) := by
  intro L
  induction L with
  | nil =>
    intro acc
    constructor <;> simp
  | cons v rest ih =>
    intro acc
    rw [List.foldl_cons]
    by_cases hskip : v < 0 ∨ uidexists s2.dst v = false
    · rw [show pass3buildStep kwmap s2 acc v = acc from by
        unfold pass3buildStep
        rw [if_pos hskip]]
      have h := ih acc
      constructor
      · rw [h.1]
        constructor
        · rintro (h1 | ⟨hw, hpr, hc⟩)
          · exact Or.inl h1
          · exact Or.inr ⟨List.mem_cons_of_mem _ hw, hpr, hc⟩
        · rintro (h1 | ⟨hw, hpr, hc⟩)
          · exact Or.inl h1
          · rcases List.mem_cons.mp hw with rfl | hw'
            · exact absurd hskip hpr
            · exact Or.inr ⟨hw', hpr, hc⟩
      · rw [h.2]
        constructor
        · rintro (h1 | ⟨hw, hpr, hc⟩)
          · exact Or.inl h1
          · exact Or.inr ⟨List.mem_cons_of_mem _ hw, hpr, hc⟩
        · rintro (h1 | ⟨hw, hpr, hc⟩)
          · exact Or.inl h1
          · rcases List.mem_cons.mp hw with rfl | hw'
            · exact absurd hskip hpr
            · exact Or.inr ⟨hw', hpr, hc⟩
    · rw [show pass3buildStep kwmap s2 acc v =
          (addFlagsFor acc.1
              (pass3selfflags kwmap s2 v \ pass3statusflags s2 v) v,
            addFlagsFor acc.2
              (pass3statusflags s2 v \ pass3selfflags kwmap s2 v) v) from by
        unfold pass3buildStep
        rw [if_neg hskip]]
      have h := ih (addFlagsFor acc.1
          (pass3selfflags kwmap s2 v \ pass3statusflags s2 v) v,
        addFlagsFor acc.2
          (pass3statusflags s2 v \ pass3selfflags kwmap s2 v) v)
      constructor
      · rw [h.1]
        rw [show (addFlagsFor acc.1
            (pass3selfflags kwmap s2 v \ pass3statusflags s2 v) v,
          addFlagsFor acc.2
            (pass3statusflags s2 v \ pass3selfflags kwmap s2 v) v).1 =
          addFlagsFor acc.1
            (pass3selfflags kwmap s2 v \ pass3statusflags s2 v) v from rfl]
        rw [exists_mem_addFlagsFor]
        constructor
        · rintro ((h1 | ⟨hc, rfl⟩) | ⟨hw, hpr, hc⟩)
          · exact Or.inl h1
          · exact Or.inr ⟨List.mem_cons_self _ _, hskip, hc⟩
          · exact Or.inr ⟨List.mem_cons_of_mem _ hw, hpr, hc⟩
        · rintro (h1 | ⟨hw, hpr, hc⟩)
          · exact Or.inl (Or.inl h1)
          · rcases List.mem_cons.mp hw with rfl | hw'
            · exact Or.inl (Or.inr ⟨hc, rfl⟩)
            · exact Or.inr ⟨hw', hpr, hc⟩
      · rw [h.2]
        rw [show (addFlagsFor acc.1
            (pass3selfflags kwmap s2 v \ pass3statusflags s2 v) v,
          addFlagsFor acc.2
            (pass3statusflags s2 v \ pass3selfflags kwmap s2 v) v).2 =
          addFlagsFor acc.2
            (pass3statusflags s2 v \ pass3selfflags kwmap s2 v) v from rfl]
        rw [exists_mem_addFlagsFor]
        constructor
        · rintro ((h1 | ⟨hc, rfl⟩) | ⟨hw, hpr, hc⟩)
          · exact Or.inl h1
          · exact Or.inr ⟨List.mem_cons_self _ _, hskip, hc⟩
          · exact Or.inr ⟨List.mem_cons_of_mem _ hw, hpr, hc⟩
        · rintro (h1 | ⟨hw, hpr, hc⟩)
          · exact Or.inl (Or.inl h1)
          · rcases List.mem_cons.mp hw with rfl | hw'
            · exact Or.inl (Or.inr ⟨hc, rfl⟩)
            · exact Or.inr ⟨hw', hpr, hc⟩

lemma pass3_false_eq (kwmap : Option (List (String × Char))) (s2 : SyncSt) :
    pass3 kwmap false s2 =
      (pass3build kwmap s2).2.foldl applyDelBatch
        ((pass3build kwmap s2).1.foldl applyAddBatch s2) := by
  simp only [pass3]
  rw [show (fun (t : SyncSt) (p : Char × List Int) =>
      if (false : Bool) then t else applyAddBatch t p) = applyAddBatch from by
    funext t p
    rw [if_neg (by simp)]]
  rw [show (fun (t : SyncSt) (p : Char × List Int) =>
      if (false : Bool) then t else applyDelBatch t p) = applyDelBatch from by
    funext t p
    rw [if_neg (by simp)]]

lemma pass3_src_eq (kwmap : Option (List (String × Char))) (s2 : SyncSt) :
    (pass3 kwmap false s2).src = s2.src := by
  rw [pass3_false_eq]
  rw [(lookup_applyDelBatches _ _ 0).2.2, (lookup_applyAddBatches _ _ 0).2.2]

lemma pass3_dst_mem (kwmap : Option (List (String × Char))) (s2 : SyncSt)
    (u : Int) :
    uidexists (pass3 kwmap false s2).dst u = uidexists s2.dst u := by
  unfold uidexists
  rw [pass3_false_eq]
  rw [(lookup_applyDelBatches _ _ u).2.1, (lookup_applyAddBatches _ _ u).2.1]
  cases s2.dst.lookup u <;> rfl

lemma pass3_char (kwmap : Option (List (String × Char))) (s2 : SyncSt)
    (u : Int) (m : Msg) (hu : 0 ≤ u) (hsrc : s2.src.lookup u = some m)
    (hdst : uidexists s2.dst u = true) (mst : Msg)
    (hstat : s2.status.lookup u = some mst) :
    ∃ mst3, (pass3 kwmap false s2).status.lookup u = some mst3 ∧
      mst3.flags = combine_flags_and_keywords kwmap m := by
  have hproc : ¬(u < 0 ∨ uidexists s2.dst u = false) := by
    rintro (h | h)
    · omega
    · rw [hdst] at h
      exact absurd h (by simp)
  have hsf : pass3statusflags s2 u = mst.flags := by
    unfold pass3statusflags
    rw [hstat]
  have hcf : pass3selfflags kwmap s2 u = combine_flags_and_keywords kwmap m := by
    unfold pass3selfflags
    rw [hsrc]
  have humem : u ∈ sortedKeys s2.src := by
    rw [mem_sortedKeys]
    unfold uidexists
    rw [hsrc]
    rfl
  have hA : flagsFromAssoc (pass3build kwmap s2).1 u =
      combine_flags_and_keywords kwmap m \ mst.flags := by
    ext c
    rw [mem_flagsFromAssoc]
    unfold pass3build
    rw [(exists_mem_pass3build_fold kwmap s2 c u (sortedKeys s2.src) ([], [])).1]
    rw [hsf, hcf]
    constructor
    · rintro (⟨p, hp, -⟩ | ⟨-, -, hc⟩)
      · exact absurd hp (List.not_mem_nil _)
      · exact hc
    · intro hc
      exact Or.inr ⟨humem, hproc, hc⟩
  have hD : flagsFromAssoc (pass3build kwmap s2).2 u =
      mst.flags \ combine_flags_and_keywords kwmap m := by
    ext c
    rw [mem_flagsFromAssoc]
    unfold pass3build
    rw [(exists_mem_pass3build_fold kwmap s2 c u (sortedKeys s2.src) ([], [])).2]
    rw [hsf, hcf]
    constructor
    · rintro (⟨p, hp, -⟩ | ⟨-, -, hc⟩)
      · exact absurd hp (List.not_mem_nil _)
      · exact hc
    · intro hc
      exact Or.inr ⟨humem, hproc, hc⟩
  have hlk3 : (pass3 kwmap false s2).status.lookup u =
      some (Msg.mk ((mst.flags ∪ flagsFromAssoc (pass3build kwmap s2).1 u) \
          flagsFromAssoc (pass3build kwmap s2).2 u)
        mst.keywords mst.rtime) := by
    rw [pass3_false_eq]
    rw [(lookup_applyDelBatches _ _ u).1, (lookup_applyAddBatches _ _ u).1, hstat]
    rfl
  refine ⟨_, hlk3, ?_⟩
  show (mst.flags ∪ flagsFromAssoc (pass3build kwmap s2).1 u) \
      flagsFromAssoc (pass3build kwmap s2).2 u =
    combine_flags_and_keywords kwmap m
  rw [hA, hD]
  ext a
  simp only [Finset.mem_sdiff, Finset.mem_union]
  tauto

/-! ## Pass 1 under a UID-preserving destination save -/

lemma pass1_none_false_eq (save : SaveFn) (b : Bool) (s : SyncSt) :
    pass1 save b none false s =
      (copylistOf s.src s.status).foldl (pass1step save b) (s, [], false) := by
  unfold pass1
  rw [if_neg (by rintro ⟨-, h⟩; exact absurd h (by simp))]

lemma pass1step_simple (save : SaveFn) (b : Bool)
    (hsave : ∀ v mm d, save v mm d = (v, insertMsg d v mm))
    (acc : SyncSt × List Ev × Bool) (v : Int) :
    (pass1step save b acc v).1.src = acc.1.src ∧
    (∀ w, uidexists acc.1.status w = true →
      uidexists (pass1step save b acc v).1.status w = true) ∧
    (0 < v → uidexists acc.1.src v = true →
      uidexists (pass1step save b acc v).1.status v = true) := by
  unfold pass1step
  by_cases h0 : v = 0
  · rw [if_pos h0]
    exact ⟨rfl, fun w h => h, fun hv _ => absurd h0 (by omega)⟩
  · rw [if_neg h0]
    by_cases h1 : 0 < v ∧ uidexists acc.1.dst v
    · rw [if_pos h1]
      cases hlk : acc.1.src.lookup v with
      | none =>
        refine ⟨rfl, fun w h => h, fun _ hex => absurd hex ?_⟩
        unfold uidexists
        rw [hlk]
        simp
      | some m =>
        refine ⟨rfl, ?_, ?_⟩
        · intro w h
          exact (uidexists_insertMsg _ _ _ _).mpr (Or.inr h)
        · intro _ _
          exact (uidexists_insertMsg _ _ _ _).mpr (Or.inl rfl)
    · rw [if_neg h1]
      unfold copymessageto
      cases hlk : acc.1.src.lookup v with
      | none =>
        refine ⟨rfl, fun w h => h, fun _ hex => absurd hex ?_⟩
        unfold uidexists
        rw [hlk]
        simp
      | some m =>
        dsimp only
        rw [hsave]
        by_cases hv : 0 < v
        · rw [if_pos (show 0 < ((v, insertMsg acc.1.dst v m) : Int × MsgList).1
            from hv)]
          rw [if_neg (show ¬(((v, insertMsg acc.1.dst v m) : Int × MsgList).1 ≠ v)
            from fun h => h rfl)]
          refine ⟨rfl, ?_, ?_⟩
          · intro w h
            exact (uidexists_insertMsg _ _ _ _).mpr (Or.inr h)
          · intro _ _
            exact (uidexists_insertMsg _ _ _ _).mpr (Or.inl rfl)
        · rw [if_neg (show ¬(0 < ((v, insertMsg acc.1.dst v m) : Int × MsgList).1)
            from hv)]
          rw [if_neg (show ¬(((v, insertMsg acc.1.dst v m) : Int × MsgList).1 = 0)
            from h0)]
          exact ⟨rfl, fun w h => h, fun hv' _ => absurd hv' hv⟩

lemma pass1fold_simple (save : SaveFn) (b : Bool)
    (hsave : ∀ v mm d, save v mm d = (v, insertMsg d v mm)) :
    ∀ (L : List Int) (acc : SyncSt × List Ev × Bool),
    ((L.foldl (pass1step save b) acc).1.src = acc.1.src) ∧
    (∀ w, uidexists acc.1.status w = true →
      uidexists ((L.foldl (pass1step save b) acc).1.status) w = true) := by
  intro L
  induction L with
  | nil => exact fun acc => ⟨rfl, fun w h => h⟩
  | cons v rest ih =>
    intro acc
    rw [List.foldl_cons]
    obtain ⟨hsrc, hmono, -⟩ := pass1step_simple save b hsave acc v
    exact ⟨(ih _).1.trans hsrc, fun w h => (ih _).2 w (hmono w h)⟩

lemma pass1_simple (save : SaveFn) (b : Bool) (s : SyncSt)
    (hsave : ∀ v mm d, save v mm d = (v, insertMsg d v mm)) :
    (pass1 save b none false s).1.src = s.src ∧
    (∀ u, 0 < u → uidexists s.src u = true →
      uidexists (pass1 save b none false s).1.status u = true) := by
  rw [pass1_none_false_eq]
  refine ⟨(pass1fold_simple save b hsave _ _).1, ?_⟩
  intro u hu hex
  by_cases hst : uidexists s.status u = true
  · exact (pass1fold_simple save b hsave _ _).2 u hst
  · have humem : u ∈ copylistOf s.src s.status := by
      unfold copylistOf
      rw [List.mem_filter, mem_sortedKeys]
      refine ⟨hex, ?_⟩
      rw [show uidexists s.status u = false from by
        cases hb : uidexists s.status u
        · rfl
        · exact absurd hb hst]
      rfl
    obtain ⟨l1, l2, hsplit⟩ := List.append_of_mem humem
    rw [hsplit, List.foldl_append, List.foldl_cons]
    have hsrc1 : (l1.foldl (pass1step save b) (s, [], false)).1.src = s.src :=
      (pass1fold_simple save b hsave l1 _).1
    have hstep := pass1step_simple save b hsave
      (l1.foldl (pass1step save b) (s, [], false)) u
    have hinstat : uidexists
        (pass1step save b (l1.foldl (pass1step save b) (s, [], false)) u).1.status
        u = true := by
      refine hstep.2.2 hu ?_
      rw [hsrc1]
      exact hex
    exact (pass1fold_simple save b hsave l2 _).2 u hinstat

lemma foldl_applyPass2Op_src :
    ∀ (ops : List Pass2Op) (t : SyncSt), (ops.foldl applyPass2Op t).src = t.src := by
  intro ops
  induction ops with
  | nil => exact fun t => rfl
  | cons op rest ih =>
    intro t
    rw [List.foldl_cons, ih]
    cases op <;> rfl

lemma pass2_src_eq (sd : Bool) (s : SyncSt) : (pass2 sd false s).src = s.src := by
  unfold pass2
  rw [if_neg (by simp)]
  exact foldl_applyPass2Op_src _ s

lemma pass2_keeps_src_uids (sd : Bool) (s : SyncSt) (u : Int)
    (hsrc : uidexists s.src u = true) (hstat : uidexists s.status u = true) :
    uidexists (pass2 sd false s).status u = true := by
  rw [pass2_status_eq, uidexists_removeKeys]
  refine ⟨hstat, fun hmem => ?_⟩
  rcases (mem_pass2deletelist sd s u).mp hmem with ⟨-, -, h, -⟩
  rw [hsrc] at h
  exact absurd h (by simp)

/-- C1: after a full sync (all three passes, no dry-run, no
copy-ignore filter, destination save preserving the requested UID and
recording the message - the completion assumption), every UID that is
positive and present in both the final src and the final dst has a
status entry whose flag set equals the combination of the src
message's flags with its keywords mapped through the destination's
keyword map (unmapped keywords dropped). -/
theorem fullSync_status_flags (save : SaveFn) (b : Bool)
    (kwmap : Option (List (String × Char))) (sd : Bool) (s : SyncSt) (u : Int)
    (hsave : ∀ v mm d, save v mm d = (v, insertMsg d v mm))
    (hu : 0 < u)
    (hsrcmem : uidexists (fullSync save b none kwmap sd false s).src u = true)
    (hdstmem : uidexists (fullSync save b none kwmap sd false s).dst u = true) :
    ∃ m, (fullSync save b none kwmap sd false s).src.lookup u = some m ∧
      ∃ mst, (fullSync save b none kwmap sd false s).status.lookup u = some mst ∧
        mst.flags = combine_flags_and_keywords kwmap m := by
  have hfs : fullSync save b none kwmap sd false s =
      pass3 kwmap false (pass2 sd false (pass1 save b none false s).1) := rfl
  have hsrc_chain : (fullSync save b none kwmap sd false s).src = s.src := by
    rw [hfs, pass3_src_eq, pass2_src_eq, (pass1_simple save b s hsave).1]
  have hsrcmem0 : uidexists s.src u = true := by
    rw [← hsrc_chain]
    exact hsrcmem
  obtain ⟨m, hm⟩ : ∃ m, s.src.lookup u = some m := by
    unfold uidexists at hsrcmem0
    cases hlk : s.src.lookup u with
    | none =>
      rw [hlk] at hsrcmem0
      exact absurd hsrcmem0 (by simp)
    | some mm => exact ⟨mm, rfl⟩
  have hstat1 : uidexists (pass1 save b none false s).1.status u = true :=
    (pass1_simple save b s hsave).2 u hu hsrcmem0
  have hsrc1 : uidexists (pass1 save b none false s).1.src u = true := by
    rw [(pass1_simple save b s hsave).1]
    exact hsrcmem0
  have hstat2 : uidexists
      (pass2 sd false (pass1 save b none false s).1).status u = true :=
    pass2_keeps_src_uids sd _ u hsrc1 hstat1
  obtain ⟨mst, hmst⟩ : ∃ mst,
      (pass2 sd false (pass1 save b none false s).1).status.lookup u
        = some mst := by
    unfold uidexists at hstat2
    cases hlk : (pass2 sd false (pass1 save b none false s).1).status.lookup u
      with
    | none =>
      rw [hlk] at hstat2
      exact absurd hstat2 (by simp)
    | some mm => exact ⟨mm, rfl⟩
  have hdst2 : uidexists
      (pass2 sd false (pass1 save b none false s).1).dst u = true := by
    rw [← pass3_dst_mem kwmap]
    rw [hfs] at hdstmem
    exact hdstmem
  have hsrc2lk : (pass2 sd false (pass1 save b none false s).1).src.lookup u
      = some m := by
    rw [pass2_src_eq, (pass1_simple save b s hsave).1]
    exact hm
  obtain ⟨mst3, hmst3, hflags⟩ := pass3_char kwmap
    (pass2 sd false (pass1 save b none false s).1) u m (by omega) hsrc2lk
    hdst2 mst hmst
  refine ⟨m, ?_, mst3, ?_, hflags⟩
  · rw [hsrc_chain]
    exact hm
  · rw [hfs]
    exact hmst3

/-- C1 (witness): the full-sync flag theorem applied to a concrete
state with a keyword map: src has UID 3 with flag S and keyword "work",
dst has UID 3, the keyword map sends "work" to W, and the final status
flag set is S together with W. -/
theorem fullSync_status_flags_witness :
    (∃ m, (fullSync (fun v mm d => (v, insertMsg d v mm)) true none
        (some [("work", 'W')]) true false
        (SyncSt.mk [(3, Msg.mk {'S'} {"work"} 0)] [(3, Msg.mk {'S'} ∅ 0)]
          [])).src.lookup 3 = some m ∧
      ∃ mst, (fullSync (fun v mm d => (v, insertMsg d v mm)) true none
          (some [("work", 'W')]) true false
          (SyncSt.mk [(3, Msg.mk {'S'} {"work"} 0)] [(3, Msg.mk {'S'} ∅ 0)]
            [])).status.lookup 3 = some mst ∧
        mst.flags = combine_flags_and_keywords (some [("work", 'W')]) m) :=
  fullSync_status_flags (fun v mm d => (v, insertMsg d v mm)) true
    (some [("work", 'W')]) true
    (SyncSt.mk [(3, Msg.mk {'S'} {"work"} 0)] [(3, Msg.mk {'S'} ∅ 0)] []) 3
    (fun v mm d => rfl) (by decide) (by decide) (by decide)

/-! ## Error propagation in syncmessagesto (Base.py lines 1081-1097) -/

/-- Modelled from the spec: the MESSAGE severity level of
`OfflineImapError` (error.py is not among the given sources; section 7
of the spec lists five severities in ascending order). -/
def ERROR_MESSAGE : Nat := 0

/-- Modelled from the spec: the FOLDER_RETRY severity, between MESSAGE
and FOLDER ("promoted to Folder" when retries are exhausted). -/
def ERROR_FOLDER_RETRY : Nat := 15

/-- Modelled from the spec: the FOLDER severity level. -/
def ERROR_FOLDER : Nat := 30

/-- Modelled from the spec: the REPO severity level. -/
def ERROR_REPO : Nat := 60

/-- Modelled from the spec: the CRITICAL severity level. -/
def ERROR_CRITICAL : Nat := 100

/-- Exceptions a pass body can raise, as seen by the handlers of
`syncmessagesto` and `copymessageto`: an `OfflineImapError` carrying a
severity, a KeyboardInterrupt, or any other exception. -/
inductive PassErr where
  | oie (sev : Nat)
  | keyboardInterrupt
  | otherExc
deriving DecidableEq

/-- Embedding of the pass loop of `syncmessagesto` (Base.py lines
1081-1097).  Each pass runs on the current state and may raise; a
KeyboardInterrupt or an unknown exception propagates immediately, an
`OfflineImapError` with severity greater than FOLDER propagates, and
any other `OfflineImapError` (MESSAGE or FOLDER severity) is logged
(collected in the returned list) after which the loop CONTINUES with
the next pass.  The abort latch is polled before each pass. -/
def syncLoop {σ : Type} (aborted : Bool) :
    List (σ → σ × Option PassErr) → σ → σ × Option PassErr × List PassErr
  | [], st => (st, none, [])
  | p :: ps, st =>
    if aborted then (st, none, [])
    else
      match p st with
      | (st', none) => syncLoop aborted ps st'
      | (st', some PassErr.keyboardInterrupt) =>
          (st', some PassErr.keyboardInterrupt, [])
      | (st', some PassErr.otherExc) => (st', some PassErr.otherExc, [])
      | (st', some (PassErr.oie sev)) =>
        if ERROR_FOLDER < sev then (st', some (PassErr.oie sev), [])
        else
          ((syncLoop aborted ps st').1, (syncLoop aborted ps st').2.1,
            PassErr.oie sev :: (syncLoop aborted ps st').2.2)

/-- Embedding of the exception handling of `copymessageto` (Base.py
lines 832-842): KeyboardInterrupt bubbles up, an `OfflineImapError`
with severity greater than MESSAGE is re-raised, a MESSAGE-severity
error is logged and swallowed, and unknown exceptions are re-raised. -/
def copymessageto_handler : Option PassErr → Option PassErr
  | none => none
  | some PassErr.keyboardInterrupt => some PassErr.keyboardInterrupt
  | some (PassErr.oie sev) =>
      if ERROR_MESSAGE < sev then some (PassErr.oie sev) else none
  | some PassErr.otherExc => some PassErr.otherExc

/-- C5 (counterexample): a FOLDER-severity error raised by the first
pass does NOT break the pass loop: with two passes that append 1 and 2
to the state, the first raising at FOLDER severity, the final state is
[1, 2] - the second pass still ran - and the error was merely logged.
The claim that no later pass of that folder runs is false on the code
(Base.py lines 1089-1093 log the error and fall through to the next
iteration; there is no break). -/
theorem syncmessagesto_folder_break_counterexample :
    (syncLoop false
      [fun st : List Nat => (st ++ [1], some (PassErr.oie ERROR_FOLDER)),
        fun st => (st ++ [2], none)] []).1 = [1, 2]
    ∧ (syncLoop false
      [fun st : List Nat => (st ++ [1], some (PassErr.oie ERROR_FOLDER)),
        fun st => (st ++ [2], none)] []).2.2 = [PassErr.oie ERROR_FOLDER] :=
  ⟨rfl, rfl⟩

/-- C5 (amended): in `syncmessagesto`, an `OfflineImapError` of
severity at most FOLDER raised by a pass is logged and swallowed and
the loop continues with the remaining passes (no break); severity
greater than FOLDER propagates out, aborting the remaining passes; and
inside `copymessageto` a MESSAGE-severity error is swallowed while
greater severities are re-raised. -/
theorem syncmessagesto_error_propagation {σ : Type}
    (p : σ → σ × Option PassErr) (ps : List (σ → σ × Option PassErr))
    (st st' : σ) (sev : Nat) :
    (p st = (st', some (PassErr.oie sev)) → sev ≤ ERROR_FOLDER →
      syncLoop false (p :: ps) st =
        ((syncLoop false ps st').1, (syncLoop false ps st').2.1,
          PassErr.oie sev :: (syncLoop false ps st').2.2))
    ∧ (p st = (st', some (PassErr.oie sev)) → ERROR_FOLDER < sev →
      syncLoop false (p :: ps) st = (st', some (PassErr.oie sev), []))
    ∧ copymessageto_handler (some (PassErr.oie ERROR_MESSAGE)) = none
    ∧ (∀ s2, ERROR_MESSAGE < s2 →
      copymessageto_handler (some (PassErr.oie s2)) = some (PassErr.oie s2)) := by
  refine ⟨?_, ?_, rfl, ?_⟩
  · intro hp hle
    rw [syncLoop, if_neg (by simp), hp]
    dsimp only
    rw [if_neg (not_lt.mpr hle)]
  · intro hp hgt
    rw [syncLoop, if_neg (by simp), hp]
    dsimp only
    rw [if_pos hgt]
  · intro s2 h2
    unfold copymessageto_handler
    dsimp only
    rw [if_pos h2]

/-- C5 (witness): the propagation theorem applied to the concrete
two-pass counterexample configuration. -/
theorem syncmessagesto_error_propagation_witness :
    syncLoop false
        [fun st : List Nat => (st ++ [1], some (PassErr.oie ERROR_FOLDER)),
          fun st => (st ++ [2], none)] [] =
      ((syncLoop false [fun st : List Nat => (st ++ [2], none)] [1]).1,
        (syncLoop false [fun st : List Nat => (st ++ [2], none)] [1]).2.1,
        PassErr.oie ERROR_FOLDER ::
          (syncLoop false [fun st : List Nat => (st ++ [2], none)] [1]).2.2) :=
  (syncmessagesto_error_propagation
    (fun st : List Nat => (st ++ [1], some (PassErr.oie ERROR_FOLDER)))
    [fun st => (st ++ [2], none)] [] [1] ERROR_FOLDER).1 rfl (le_refl _)

/-! ## IMAP savemessage (folder/IMAP.py lines 623-832)

The network side (select, append, UID SEARCH, UID FETCH, APPENDUID
response) is abstracted as an oracle `ImapConn`; the CRC32 checksum of
the message bytes (computed by the external `binascii` library) and
the random component are abstracted as parameter functions.  Control
flow, header injection, the retry loop, the read-only early return,
the fallback fetch-start computation and the messagelist update follow
the source. -/

/-- Message as a list of headers (the body bytes only enter through
the abstract CRC32 function). -/
structure PyMsg where
  headers : List (String × String)
deriving DecidableEq

/-- Embedding of `addmessageheader` (Base.py lines 661-677):
`msg.add_header` appends the header. -/
def addHeaderMsg (m : PyMsg) (name value : String) : PyMsg :=
  PyMsg.mk (m.headers ++ [(name, value)])

/-- Embedding of `deletemessageheaders` (Base.py lines 710-727) as used
on `filterheaders` before APPEND (IMAP.py line 652). -/
def removeHeaders (m : PyMsg) (names : List String) : PyMsg :=
  PyMsg.mk (m.headers.filter (fun p => !names.contains p.1))

/-- Outcome of one APPEND attempt: 'OK' response, a non-OK ('NO')
response, a connection abort, or an imapobj.error. -/
inductive AppendOut where
  | okTyp
  | noTyp
  | abortExc
  | errorExc
deriving DecidableEq

/-- Oracle for the IMAP connection behaviour during `savemessage`. -/
structure ImapConn where
  uidplus : Bool
  selectReadonly : Bool
  appendRes : Nat → AppendOut
  searchUid : String → String → Nat
  fetchOk : Bool
  fetchScan : Int → Nat
  appenduidResp : Option Nat

/-- Observable steps of `savemessage`. -/
inductive SaveEv where
  | addHeader (name value : String)
  | selectEv
  | append (attempt : Nat) (msg : PyMsg)
  | search (name value : String)
  | fetchHeaders (start : Int)
deriving DecidableEq

/-- Largest UID in the cached message list (`max(keys)`). -/
def maxKey (ml : MsgList) : Option Int :=
  (ml.map Prod.fst).max?

/-- Embedding of `__generate_randomheader` (IMAP.py lines 375-405): the
header name is X-OfflineIMAP and the value is the unsigned CRC32 of the
message bytes (crc32 & 0xffffffff) followed by a dash and a random
number. -/
def generate_randomheader (crc32 : PyMsg → Nat) (rand : Nat → Nat)
    (attempt : Nat) (m : PyMsg) : String × String :=
  ("X-OfflineIMAP", toString (crc32 m % 2 ^ 32) ++ "-" ++ toString (rand attempt))

/-- Result of the retry loop of `savemessage` (IMAP.py lines 668-760):
the read-only early return, a successful APPEND (carrying the message
as appended and the injected header, if any), or a raised
OfflineImapError of the given severity. -/
inductive LoopRes where
  | readonlyRet (evs : List SaveEv)
  | appended (msg : PyMsg) (hdr : Option (String × String)) (evs : List SaveEv)
  | raised (sev : Nat) (evs : List SaveEv)
deriving DecidableEq

/-- Embedding of the `while retry_left` loop of `savemessage` (IMAP.py
lines 676-760): each iteration regenerates and injects the random
header when the server lacks UIDPLUS (note the header is added again on
a retry, as in the source), selects the folder (a readonly exception
returns the original uid), and APPENDs; a non-OK response raises at
REPO severity, an imapobj.error raises at MESSAGE severity, and an
abort retries until `retry_left` runs out, then raises at MESSAGE
severity. -/
def appendLoop (conn : ImapConn) (crc32 : PyMsg → Nat) (rand : Nat → Nat) :
    Nat → Nat → PyMsg → List SaveEv → LoopRes
  | 0, _, msg, evs => LoopRes.appended msg none evs
  | fuel + 1, attempt, msg, evs =>
    let hdrOpt := if conn.uidplus then none
      else some (generate_randomheader crc32 rand attempt msg)
    let msg2 := match hdrOpt with
      | none => msg
      | some h => addHeaderMsg msg h.1 h.2
    let evs1 := evs ++ (match hdrOpt with
      | none => []
      | some h => [SaveEv.addHeader h.1 h.2])
    if conn.selectReadonly then LoopRes.readonlyRet evs1
    else
      let evs2 := evs1 ++ [SaveEv.selectEv, SaveEv.append attempt msg2]
      match conn.appendRes attempt with
      | AppendOut.okTyp => LoopRes.appended msg2 hdrOpt evs2
      | AppendOut.noTyp => LoopRes.raised ERROR_REPO evs2
      | AppendOut.errorExc => LoopRes.raised ERROR_MESSAGE evs2
      | AppendOut.abortExc =>
        if fuel = 0 then LoopRes.raised ERROR_MESSAGE evs2
        else appendLoop conn crc32 rand fuel (attempt + 1) msg2 evs2

/-- Embedding of `IMAPFolder.savemessage` (IMAP.py lines 623-832).
Already-existing positive UIDs short-circuit to a flag save; otherwise
the user-filtered headers are removed, the append loop runs with
`retry_left = 2`, and the new UID is determined from the APPENDUID
response (UIDPLUS) or by UID SEARCH for the injected header with a
fallback UID FETCH of the headers of every UID from
`1 + max(known uids)` upwards; if it is still not found, 0 is
returned.  A nonzero new UID is recorded in the message list. -/
def savemessageIMAP (conn : ImapConn) (crc32 : PyMsg → Nat) (rand : Nat → Nat)
    (filterheaders : List String) (uid : Int) (msg : PyMsg)
    (flags : Finset Char) (ml : MsgList) :
    Except Nat (Int × MsgList × List SaveEv) :=
  if 0 < uid ∧ uidexists ml uid then
    Except.ok (uid, updateFlags ml uid (fun _ => flags), [])
  else
    let msg1 := removeHeaders msg filterheaders
    match appendLoop conn crc32 rand 2 0 msg1 [] with
    | LoopRes.readonlyRet evs => Except.ok (uid, ml, evs)
    | LoopRes.raised sev _ => Except.error sev
    | LoopRes.appended _ hdrOpt evs =>
      if conn.uidplus then
        match conn.appenduidResp with
        | none => Except.ok (0, ml, evs)
        | some nuid =>
          if nuid ≠ 0 then
            Except.ok ((nuid : Int), insertMsg ml (nuid : Int)
              (Msg.mk flags ∅ 0), evs)
          else Except.ok (0, ml, evs)
      else
        match hdrOpt with
        | none => Except.ok (0, ml, evs)
        | some h =>
          let evsS := evs ++ [SaveEv.search h.1 h.2]
          let u1 := conn.searchUid h.1 h.2
          if u1 ≠ 0 then
            Except.ok ((u1 : Int), insertMsg ml (u1 : Int)
              (Msg.mk flags ∅ 0), evsS)
          else if conn.fetchOk = false then Except.error ERROR_MESSAGE
          else
            let start : Int :=
              match maxKey ml with
              | some mx => mx + 1
              | none => 1
            let evsF := evsS ++ [SaveEv.fetchHeaders start]
            let u2 := conn.fetchScan start
            if u2 ≠ 0 then
              Except.ok ((u2 : Int), insertMsg ml (u2 : Int)
                (Msg.mk flags ∅ 0), evsF)
            else Except.ok (0, ml, evsF)

/-- C4 (code_bug evaluation): on a read-only destination folder,
`savemessage` with uid hint 5 returns 5 - the original hint, which is
positive - and performs no APPEND (the only event is the header
injection, the message list stays empty): the message was not saved
yet the return value is not negative, contradicting both the claim and
the function's own docstring (IMAP.py lines 640-642: "it will return
-1"). -/
theorem savemessage_readonly_returns_hint :
    savemessageIMAP
        (ImapConn.mk false true (fun _ => AppendOut.okTyp) (fun _ _ => 0) true
          (fun _ => 0) none)
        (fun _ => 0) (fun _ => 0) [] 5 (PyMsg.mk []) ∅ []
      = Except.ok (5, [], [SaveEv.addHeader "X-OfflineIMAP" "0-0"])
    ∧ ¬((5 : Int) < 0) := by
  constructor
  · rfl
  · decide

/-- C8: on a server without UIDPLUS (first APPEND attempt succeeding,
folder not read-only, message not already present), `savemessage`
injects the unique X-OfflineIMAP header whose value is
crc32(message) mod 2^32 followed by a dash and the random number, the
header is part of the appended message, the new UID is the UID SEARCH
result for exactly that header; when the search returns nothing the
fallback fetches the headers of every UID strictly greater than the
maximum UID known before the APPEND (from 1 + max(known) on, or from 1
on an empty folder) and scans them, and when that also finds nothing
the function returns 0. -/
theorem savemessage_nonuidplus (conn : ImapConn) (crc32 : PyMsg → Nat)
    (rand : Nat → Nat) (fh : List String) (uid : Int) (msg : PyMsg)
    (flags : Finset Char) (ml : MsgList) (m1 : PyMsg) (hd : String × String)
    (msgA : PyMsg) (start : Int)
    (hplus : conn.uidplus = false) (hro : conn.selectReadonly = false)
    (hap : conn.appendRes 0 = AppendOut.okTyp) (hfok : conn.fetchOk = true)
    (hnew : ¬(0 < uid ∧ uidexists ml uid))
    (hm1 : m1 = removeHeaders msg fh)
    (hhd : hd = generate_randomheader crc32 rand 0 m1)
    (hmsgA : msgA = addHeaderMsg m1 hd.1 hd.2)
    (hstart : start = (match maxKey ml with
      | some mx => mx + 1
      | none => (1 : Int))) :
    (hd.1 = "X-OfflineIMAP" ∧
      hd.2 = toString (crc32 m1 % 2 ^ 32) ++ "-" ++ toString (rand 0))
    ∧ (hd.1, hd.2) ∈ msgA.headers
    ∧ (conn.searchUid hd.1 hd.2 ≠ 0 →
      savemessageIMAP conn crc32 rand fh uid msg flags ml =
        Except.ok ((conn.searchUid hd.1 hd.2 : Int),
          insertMsg ml (conn.searchUid hd.1 hd.2 : Int) (Msg.mk flags ∅ 0),
          [SaveEv.addHeader hd.1 hd.2, SaveEv.selectEv, SaveEv.append 0 msgA,
            SaveEv.search hd.1 hd.2]))
    ∧ (conn.searchUid hd.1 hd.2 = 0 → conn.fetchScan start ≠ 0 →
      savemessageIMAP conn crc32 rand fh uid msg flags ml =
        Except.ok ((conn.fetchScan start : Int),
          insertMsg ml (conn.fetchScan start : Int) (Msg.mk flags ∅ 0),
          [SaveEv.addHeader hd.1 hd.2, SaveEv.selectEv, SaveEv.append 0 msgA,
            SaveEv.search hd.1 hd.2, SaveEv.fetchHeaders start]))
    ∧ (conn.searchUid hd.1 hd.2 = 0 → conn.fetchScan start = 0 →
      savemessageIMAP conn crc32 rand fh uid msg flags ml =
        Except.ok (0, ml,
          [SaveEv.addHeader hd.1 hd.2, SaveEv.selectEv, SaveEv.append 0 msgA,
            SaveEv.search hd.1 hd.2, SaveEv.fetchHeaders start])) := by
  subst hm1 hhd hmsgA hstart
  have hloop : appendLoop conn crc32 rand 2 0 (removeHeaders msg fh) [] =
      LoopRes.appended
        (addHeaderMsg (removeHeaders msg fh)
          (generate_randomheader crc32 rand 0 (removeHeaders msg fh)).1
          (generate_randomheader crc32 rand 0 (removeHeaders msg fh)).2)
        (some (generate_randomheader crc32 rand 0 (removeHeaders msg fh)))
        [SaveEv.addHeader
            (generate_randomheader crc32 rand 0 (removeHeaders msg fh)).1
            (generate_randomheader crc32 rand 0 (removeHeaders msg fh)).2,
          SaveEv.selectEv,
          SaveEv.append 0 (addHeaderMsg (removeHeaders msg fh)
            (generate_randomheader crc32 rand 0 (removeHeaders msg fh)).1
            (generate_randomheader crc32 rand 0 (removeHeaders msg fh)).2)] := by
    show appendLoop conn crc32 rand (1 + 1) 0 (removeHeaders msg fh) [] = _
    rw [appendLoop]
    rw [hplus]
    rw [if_neg (show ¬(false = true) by simp)]
    rw [hro]
    rw [if_neg (show ¬(false = true) by simp)]
    rw [hap]
    rfl
  have hsave : savemessageIMAP conn crc32 rand fh uid msg flags ml =
      (let evsS := [SaveEv.addHeader
          (generate_randomheader crc32 rand 0 (removeHeaders msg fh)).1
          (generate_randomheader crc32 rand 0 (removeHeaders msg fh)).2,
        SaveEv.selectEv,
        SaveEv.append 0 (addHeaderMsg (removeHeaders msg fh)
          (generate_randomheader crc32 rand 0 (removeHeaders msg fh)).1
          (generate_randomheader crc32 rand 0 (removeHeaders msg fh)).2),
        SaveEv.search
          (generate_randomheader crc32 rand 0 (removeHeaders msg fh)).1
          (generate_randomheader crc32 rand 0 (removeHeaders msg fh)).2]
      let u1 := conn.searchUid
        (generate_randomheader crc32 rand 0 (removeHeaders msg fh)).1
        (generate_randomheader crc32 rand 0 (removeHeaders msg fh)).2
      if u1 ≠ 0 then
        Except.ok ((u1 : Int), insertMsg ml (u1 : Int) (Msg.mk flags ∅ 0), evsS)
      else
        let start : Int :=
          match maxKey ml with
          | some mx => mx + 1
          | none => 1
        let evsF := evsS ++ [SaveEv.fetchHeaders start]
        let u2 := conn.fetchScan start
        if u2 ≠ 0 then
          Except.ok ((u2 : Int), insertMsg ml (u2 : Int) (Msg.mk flags ∅ 0), evsF)
        else Except.ok (0, ml, evsF)) := by
    unfold savemessageIMAP
    rw [if_neg hnew]
    simp only [hloop, hplus, hfok]
    simp
  refine ⟨⟨rfl, rfl⟩, ?_, ?_, ?_, ?_⟩
  · exact List.mem_append_right _ (List.mem_singleton.mpr rfl)
  · intro hs1
    rw [hsave]
    dsimp only
    rw [if_pos hs1]
  · intro hs hf
    rw [hsave]
    dsimp only
    rw [if_neg (show ¬(conn.searchUid
        (generate_randomheader crc32 rand 0 (removeHeaders msg fh)).1
        (generate_randomheader crc32 rand 0 (removeHeaders msg fh)).2 ≠ 0)
      from fun h => h hs)]
    rw [if_pos hf]
    rfl
  · intro hs hf
    rw [hsave]
    dsimp only
    rw [if_neg (show ¬(conn.searchUid
        (generate_randomheader crc32 rand 0 (removeHeaders msg fh)).1
        (generate_randomheader crc32 rand 0 (removeHeaders msg fh)).2 ≠ 0)
      from fun h => h hs)]
    rw [if_neg (show ¬(conn.fetchScan (match maxKey ml with
        | some mx => mx + 1
        | none => (1 : Int)) ≠ 0) from fun h => h hf)]
    rfl

/-- C8 (witness): the non-UIDPLUS theorem applied to a concrete
connection whose search succeeds with UID 9. -/
theorem savemessage_nonuidplus_witness :
    savemessageIMAP
        (ImapConn.mk false false (fun _ => AppendOut.okTyp) (fun _ _ => 9) true
          (fun _ => 0) none)
        (fun _ => 7) (fun _ => 4) [] (-1) (PyMsg.mk []) ∅ []
      = Except.ok (9, [(9, Msg.mk ∅ ∅ 0)],
          [SaveEv.addHeader "X-OfflineIMAP" "7-4", SaveEv.selectEv,
            SaveEv.append 0 (PyMsg.mk [("X-OfflineIMAP", "7-4")]),
            SaveEv.search "X-OfflineIMAP" "7-4"]) := by
  have h := (savemessage_nonuidplus
    (ImapConn.mk false false (fun _ => AppendOut.okTyp) (fun _ _ => 9) true
      (fun _ => 0) none)
    (fun _ => 7) (fun _ => 4) [] (-1) (PyMsg.mk []) ∅ []
    (PyMsg.mk []) ("X-OfflineIMAP", "7-4")
    (PyMsg.mk [("X-OfflineIMAP", "7-4")]) 1
    rfl rfl rfl rfl (by decide) rfl rfl rfl rfl).2.2.1 (by decide)
  exact h

end Offlineimap
